import Mathlib

/-!
# Verification of the log-analyzer core (`hw1/log_analyzer.py`)

Shallow embedding of the parse → aggregate → report pipeline:

* `matchAtoms` / `logPattern` — the Python `re` backtracking match of the
  fixed `log_pattern` regex (`re.match`, i.e. anchored at the start only);
* `pyFloat?` — Python `float()` on a token, modelled over `ℚ`
  (the special values `inf`/`nan` and underscore separators of the source's
  float type are outside the model);
* `parse_log` — the ingest loop with its malformed-line counter,
  threshold check and uncaught `ValueError` on a non-numeric trailing token;
* `process_log` — the per-URL aggregation over an insertion-ordered
  association list (Python dict semantics) and the report-size filter;
* `generate_report` — the derived statistics rows, with `median` from the
  `statistics` module and `round` modelled as round-half-to-even on `ℚ`
  (the source rounds IEEE doubles; binary representation error is outside
  the model).

All numeric fields use `ℚ` in place of Python floats.
-/
/-- Python `\s` on the ASCII range: the whitespace characters recognised by
`str` patterns (Unicode whitespace beyond ASCII is outside the model). -/
def pyIsSpace (c : Char) : Bool :=
  c = ' ' || c = '\t' || c = '\n' || c = '\r' || c = '\x0b' || c = '\x0c'

/-- One atom of the fixed `log_pattern` regex: a literal character, a greedy
capturing `(\S+)`, a greedy capturing `(.*)`, or a lazy capturing `(.*?)`. -/
inductive Atom where
  | lit (c : Char)
  | splus
  | dotG
  | dotL
deriving DecidableEq

/-- Try candidate lengths `n, n-1, …, 1` (greedy `+`: at least one char,
longest first), returning the first success. -/
def tryDown1 {β : Type} (f : ℕ → Option β) : ℕ → Option β
  | 0 => none
  | n + 1 =>
    match f (n + 1) with
    | some b => some b
    | none => tryDown1 f n

/-- Try candidate lengths `n, n-1, …, 0` (greedy `*`: longest first),
returning the first success. -/
def tryDown0 {β : Type} (f : ℕ → Option β) : ℕ → Option β
  | 0 => f 0
  | n + 1 =>
    match f (n + 1) with
    | some b => some b
    | none => tryDown0 f n

/-- Try candidate lengths `k, k+1, …, k+n` (lazy `*?`: shortest first),
returning the first success. -/
def tryUpFrom {β : Type} (f : ℕ → Option β) (k : ℕ) : ℕ → Option β
  | 0 => f k
  | n + 1 =>
    match f k with
    | some b => some b
    | none => tryUpFrom f (k + 1) n

/-- Matching one literal character: consume it and hand the rest to the
continuation. -/
def litStep (c : Char) (k : List Char → Option (List (List Char))) :
    List Char → Option (List (List Char))
  | [] => none
  | c' :: s' => if c' = c then k s' else none

/-- Backtracking matcher for a sequence of `Atom`s against a character list,
with Python `re.match` semantics: the match is anchored at the start and may
end before the end of the input; returns the list of captured groups.
`.` matches any character except `'\n'` (no `DOTALL`). -/
def matchAtoms : List Atom → List Char → Option (List (List Char))
  | [], _ => some []
  | .lit c :: as, s => litStep c (matchAtoms as) s
  | .splus :: as, s =>
    tryDown1 (fun k => (matchAtoms as (s.drop k)).map (fun caps => s.take k :: caps))
      (s.takeWhile (fun c => !pyIsSpace c)).length
  | .dotG :: as, s =>
    tryDown0 (fun k => (matchAtoms as (s.drop k)).map (fun caps => s.take k :: caps))
      (s.takeWhile (fun c => c ≠ '\n')).length
  | .dotL :: as, s =>
    tryUpFrom (fun k => (matchAtoms as (s.drop k)).map (fun caps => s.take k :: caps))
      0 (s.takeWhile (fun c => c ≠ '\n')).length

/-- The fixed `log_pattern` of `parse_log`:
`(\S+) (\S+)  (\S+) \[(.*)\] "(\S+) (\S+) (\S+) (\S+) (\S+) "(\S+)" "(.*?)" "(\S+)" "(\S+)" "(\S+)" (\S+)`. -/
def logPattern : List Atom :=
  [.splus, .lit ' ', .splus, .lit ' ', .lit ' ', .splus, .lit ' ', .lit '[',
   .dotG, .lit ']', .lit ' ', .lit '"',
   .splus, .lit ' ', .splus, .lit ' ', .splus, .lit ' ', .splus, .lit ' ', .splus, .lit ' ',
   .lit '"', .splus, .lit '"', .lit ' ',
   .lit '"', .dotL, .lit '"', .lit ' ',
   .lit '"', .splus, .lit '"', .lit ' ',
   .lit '"', .splus, .lit '"', .lit ' ',
   .lit '"', .splus, .lit '"', .lit ' ',
   .splus]

/-- `log_pattern.match(line)` of the ingest loop: the 15 captured groups,
or `none` when the line does not match. -/
def lineGroups (line : List Char) : Option (List (List Char)) :=
  matchAtoms logPattern line

/-- Numeric value of a digit string (most significant first). -/
def digitsToNat (ds : List Char) : ℕ :=
  ds.foldl (fun a c => 10 * a + (c.toNat - 48)) 0

/-- The optional exponent part of a Python float literal: empty, or
`(e|E)[+|-]digits`; returns the decimal exponent. -/
def parseExpVal : List Char → Option ℤ
  | [] => some 0
  | c :: rest =>
    if c = 'e' ∨ c = 'E' then
      match rest with
      | '+' :: ds =>
        if ds ≠ [] ∧ ds.all Char.isDigit then some (digitsToNat ds : ℤ) else none
      | '-' :: ds =>
        if ds ≠ [] ∧ ds.all Char.isDigit then some (-(digitsToNat ds : ℤ)) else none
      | ds =>
        if ds ≠ [] ∧ ds.all Char.isDigit then some (digitsToNat ds : ℤ) else none
    else none

/-- The mantissa of a Python float literal: `digits`, `digits.digits?` or
`.digits`; returns the integer-part and fraction-part digit strings and the
unconsumed remainder. -/
def parseMantissa (s : List Char) : Option ((List Char × List Char) × List Char) :=
  let ip := s.takeWhile Char.isDigit
  let r1 := s.drop ip.length
  match r1 with
  | '.' :: r2 =>
    let fp := r2.takeWhile Char.isDigit
    if ip.length = 0 ∧ fp.length = 0 then none
    else some ((ip, fp), r2.drop fp.length)
  | _ => if ip.length = 0 then none else some ((ip, []), r1)

/-- Exact value of a Python float literal, represented as a signed integer
mantissa together with a decimal exponent (value `= m * 10 ^ e`). -/
def pyFloatRepCore (t : List Char) (sgn : ℤ) : Option (ℤ × ℤ) :=
  (parseMantissa t).bind fun m =>
    (parseExpVal m.2).map fun e =>
      (sgn * (digitsToNat (m.1.1 ++ m.1.2) : ℤ), e - (m.1.2.length : ℤ))

/-- Sign handling of a Python float literal. -/
def pyFloatRep? : List Char → Option (ℤ × ℤ)
  | '+' :: t => pyFloatRepCore t 1
  | '-' :: t => pyFloatRepCore t (-1)
  | t => pyFloatRepCore t 1

/-- Python `float(token)` on a non-whitespace token, over `ℚ`:
optional sign, decimal mantissa, optional exponent. `none` models the
`ValueError` raised on an invalid literal. (`inf`/`nan` and underscore
digit separators are outside the model.) -/
def pyFloat? (s : List Char) : Option ℚ :=
  (pyFloatRep? s).map fun p => (p.1 : ℚ) * 10 ^ p.2

/-- One record extracted from a well-formed line: the named fields of the
`ParsedLine` TypedDict, with `request_time` already converted to a number. -/
structure ParsedLine where
  remote_addr : List Char
  remote_user : List Char
  http_x_real_ip : List Char
  time_local : List Char
  method : List Char
  url : List Char
  protocol : List Char
  status : List Char
  body_bytes_sent : List Char
  http_referer : List Char
  http_user_agent : List Char
  http_x_forwarded_for : List Char
  http_X_REQUEST_ID : List Char
  http_X_RB_USER : List Char
  request_time : ℚ
deriving DecidableEq

/-- `dict(zip(colnames, groups))` followed by the `float` conversion of
`request_time`: build a `ParsedLine` from the 15 captured groups and the
converted trailing number. -/
def mkRecord (gs : List (List Char)) (q : ℚ) : ParsedLine :=
  ⟨gs.getD 0 [], gs.getD 1 [], gs.getD 2 [], gs.getD 3 [], gs.getD 4 [],
   gs.getD 5 [], gs.getD 6 [], gs.getD 7 [], gs.getD 8 [], gs.getD 9 [],
   gs.getD 10 [], gs.getD 11 [], gs.getD 12 [], gs.getD 13 [], q⟩

/-- The `ParsedLog` TypedDict: well-formed count, summed request time, and
the ordered list of parsed records. -/
structure ParsedLog where
  total_count : ℕ
  total_time : ℚ
  parsed_lines : List ParsedLine
deriving DecidableEq

/-- How a run of `parse_log` ends: normal return, `SystemExit` raised by the
threshold check (recording how many lines had been consumed), or the uncaught
`ValueError` from `float()` on a matched line with a non-numeric trailing
token (likewise recording the line number). -/
inductive IngestOutcome where
  | ok (result : ParsedLog)
  | thresholdExceeded (consumed : ℕ)
  | valueError (consumed : ℕ)
deriving DecidableEq

/-- The loop body of `parse_log` over the remaining lines, carrying the
running `count`, `terminated_count`, the accumulated `ParsedLog`, and the
list of lines reported by `logger.info('Skiped line: …')` so far. -/
def parseLogGo (T : ℚ) :
    List (List Char) → ℕ → ℕ → ParsedLog → List (List Char) →
      IngestOutcome × List (List Char)
  | [], _, _, acc, logs => (.ok acc, logs)
  | l :: rest, count, term, acc, logs =>
    match lineGroups l with
    | none => parseLogGo T rest (count + 1) (term + 1) acc (logs ++ [l])
    | some gs =>
      if T ≤ (term * 100 : ℚ) / (count + 1) then
        (.thresholdExceeded (count + 1), logs)
      else
        match pyFloat? (gs.getD 14 []) with
        | none => (.valueError (count + 1), logs)
        | some q =>
          parseLogGo T rest (count + 1) term
            ⟨acc.total_count + 1, acc.total_time + q, acc.parsed_lines ++ [mkRecord gs q]⟩
            logs

/-- `parse_log` with `TERMINATED_PERCENT = T`, fed the given decoded lines:
returns the outcome together with the diagnostic log of skipped lines. -/
def parse_log (T : ℚ) (lines : List (List Char)) : IngestOutcome × List (List Char) :=
  parseLogGo T lines 0 0 ⟨0, 0, []⟩ []

/-- The record produced from one line by a non-aborting run: the groups of a
successful match combined with a successful `float` conversion. -/
def recordOf (l : List Char) : Option ParsedLine :=
  (lineGroups l).bind fun gs => (pyFloat? (gs.getD 14 [])).map (mkRecord gs)

/-- Number of grammar-rejected lines among `lines` (the ingest loop's
`terminated_count` after consuming them all). -/
def malformedAmong (lines : List (List Char)) : ℕ :=
  (lines.filter (fun l => (lineGroups l).isNone)).length

/-- The per-URL running aggregate of `process_log` (the `ProcessedLine`
TypedDict as actually populated there: `time_avg` is never set by
`process_log`, so it is not part of the model). -/
structure ProcessedLine where
  url : List Char
  count : ℕ
  time_sum : ℚ
  time_max : ℚ
  time_list : List ℚ
deriving DecidableEq, Inhabited

/-- The fresh aggregate created on first sighting of a URL. -/
def initLine (u : List Char) : ProcessedLine :=
  ⟨u, 0, 0, 0, []⟩

/-- One record folded into a URL's aggregate: increment the count, add the
time to the sum, append it to the list, and update the max if strictly
greater. -/
def updLine (pl : ProcessedLine) (t : ℚ) : ProcessedLine :=
  ⟨pl.url, pl.count + 1, pl.time_sum + t, if t > pl.time_max then t else pl.time_max,
   pl.time_list ++ [t]⟩

/-- Lookup in the insertion-ordered association list modelling the Python
dict `tmp_data`. -/
def lookupUrl (u : List Char) : List (List Char × ProcessedLine) → Option ProcessedLine
  | [] => none
  | e :: rest => if e.1 = u then some e.2 else lookupUrl u rest

/-- Store into the insertion-ordered association list: an existing key keeps
its position, a new key is appended at the end (Python dict semantics). -/
def setUrl (u : List Char) (v : ProcessedLine) :
    List (List Char × ProcessedLine) → List (List Char × ProcessedLine)
  | [] => [(u, v)]
  | e :: rest => if e.1 = u then (u, v) :: rest else e :: setUrl u v rest

/-- The first loop body of `process_log`: look up (or create) the record's
URL entry, fold the record in, and store the result back. -/
def foldLine (d : List (List Char × ProcessedLine)) (p : ParsedLine) :
    List (List Char × ProcessedLine) :=
  setUrl p.url (updLine ((lookupUrl p.url d).getD (initLine p.url)) p.request_time) d

/-- The `ProcessedLog` TypedDict: totals over the retained URLs plus the
retained mapping, in insertion order. -/
structure ProcessedLog where
  total_count : ℕ
  total_time : ℚ
  data : List (List Char × ProcessedLine)
deriving DecidableEq

/-- The second loop body of `process_log`: keep an entry only when its
`time_sum` reaches `REPORT_SIZE`, accumulating the totals over kept
entries. -/
def filterStep (rs : ℚ) (acc : ProcessedLog) (e : List Char × ProcessedLine) :
    ProcessedLog :=
  if rs ≤ e.2.time_sum then
    ⟨acc.total_count + e.2.count, acc.total_time + e.2.time_sum, acc.data ++ [e]⟩
  else acc

/-- `process_log` with `REPORT_SIZE = rs`: fold all parsed records into the
per-URL table, then apply the report-inclusion filter. -/
def process_log (rs : ℚ) (parsed_log : ParsedLog) : ProcessedLog :=
  (parsed_log.parsed_lines.foldl foldLine []).foldl (filterStep rs) ⟨0, 0, []⟩

/-- Round-half-to-even to an integer, on `ℚ`. -/
def halfEven (q : ℚ) : ℤ :=
  if q - ⌊q⌋ < 1 / 2 then ⌊q⌋
  else if 1 / 2 < q - ⌊q⌋ then ⌊q⌋ + 1
  else if ⌊q⌋ % 2 = 0 then ⌊q⌋ else ⌊q⌋ + 1

/-- Python `round(x, nrd)`, modelled as round-half-to-even at `nrd` decimal
places over `ℚ` (the source rounds IEEE doubles; their binary representation
error is outside the model). -/
def pyRound (nrd : ℕ) (q : ℚ) : ℚ :=
  (halfEven (q * 10 ^ nrd) : ℚ) / 10 ^ nrd

/-- `statistics.median`: sort the data; the middle element for odd length,
the mean of the two middle elements for even length. (On the empty list the
source raises `StatisticsError`; the model returns 0, and `process_log`
never produces an empty `time_list`.) -/
def pymedian (l : List ℚ) : ℚ :=
  let s := l.mergeSort
  if s.length = 0 then 0
  else if s.length % 2 = 1 then s.getD (s.length / 2) 0
  else (s.getD (s.length / 2 - 1) 0 + s.getD (s.length / 2) 0) / 2

/-- One row of the report table built by `generate_report`. -/
structure ReportRow where
  url : List Char
  count : ℕ
  count_perc : ℚ
  time_sum : ℚ
  time_perc : ℚ
  time_avg : ℚ
  time_max : ℚ
  time_med : ℚ
deriving DecidableEq, Inhabited

/-- The row `generate_report` computes for one retained entry, given the
rounding depth and the totals of the `ProcessedLog`. -/
def reportRowOf (nrd : ℕ) (tc : ℕ) (tt : ℚ) (e : List Char × ProcessedLine) :
    ReportRow :=
  ⟨e.1, e.2.count,
   pyRound nrd ((e.2.count : ℚ) * 100 / tc),
   pyRound nrd e.2.time_sum,
   pyRound nrd (e.2.time_sum * 100 / tt),
   pyRound nrd (e.2.time_sum / (e.2.count : ℚ)),
   pyRound nrd e.2.time_max,
   pyRound nrd (pymedian e.2.time_list)⟩

/-- `generate_report` with `NUMBER_ROUND_DEPTH = nrd`: the `table_list` rows
in mapping iteration order (file-system work is outside the model). -/
def generate_report (nrd : ℕ) (processed_log : ProcessedLog) : List ReportRow :=
  processed_log.data.map (reportRowOf nrd processed_log.total_count processed_log.total_time)

/-! ## Well-formed lines: the token layout of the grammar -/
/-- The fifteen fields of one log line in the fixed token layout. -/
structure LogFields where
  addr : List Char
  user : List Char
  realip : List Char
  tloc : List Char
  meth : List Char
  urlf : List Char
  prot : List Char
  stat : List Char
  nbytes : List Char
  refr : List Char
  agent : List Char
  xfwd : List Char
  reqid : List Char
  rbuser : List Char
  ttok : List Char

/-- A plain token field: non-empty, no whitespace, and free of the quote and
closing-bracket characters that delimit neighbouring fields. -/
def goodTok (t : List Char) : Prop :=
  t ≠ [] ∧ ∀ c ∈ t, pyIsSpace c = false ∧ c ≠ '"' ∧ c ≠ ']'

/-- The bracketed timestamp field: free of newline and of the closing
bracket. -/
def goodLoc (t : List Char) : Prop :=
  ∀ c ∈ t, c ≠ '\n' ∧ c ≠ ']'

/-- The quoted user-agent field: may contain spaces, but is free of newline,
quote and closing bracket. -/
def goodAgent (t : List Char) : Prop :=
  ∀ c ∈ t, c ≠ '\n' ∧ c ≠ '"' ∧ c ≠ ']'

/-- A well-formed line in the documented layout
`<addr> <user>  <real_ip> [<time_local>] "<method> <url> <protocol>"
<status> <bytes> "<referer>" "<user_agent>" "<x_forwarded_for>"
"<request_id>" "<rb_user>" <request_time>`, followed by `rest`.
Note the double space before `<real_ip>`. -/
def renderTail (f : LogFields) (rest : List Char) : List Char :=
  f.addr ++ ' ' ::
    (f.user ++ ' ' :: ' ' ::
      (f.realip ++ ' ' :: '[' ::
        (f.tloc ++ ']' :: ' ' :: '"' ::
          (f.meth ++ ' ' ::
            (f.urlf ++ ' ' ::
              ((f.prot ++ ['"']) ++ ' ' ::
                (f.stat ++ ' ' ::
                  (f.nbytes ++ ' ' :: '"' ::
                    (f.refr ++ '"' :: ' ' :: '"' ::
                      (f.agent ++ '"' :: ' ' :: '"' ::
                        (f.xfwd ++ '"' :: ' ' :: '"' ::
                          (f.reqid ++ '"' :: ' ' :: '"' ::
                            (f.rbuser ++ '"' :: ' ' ::
                              (f.ttok ++ rest))))))))))))))

/-- A well-formed line with nothing after the trailing token. -/
def render (f : LogFields) : List Char := renderTail f []

/-- Freedom from the closing bracket, the character on which the greedy
`(.*)` of the timestamp could otherwise re-anchor. -/
def noRB (l : List Char) : Prop := ∀ c ∈ l, c ≠ ']'

instance goodTokDecidable (t : List Char) : Decidable (goodTok t) :=
  inferInstanceAs (Decidable (t ≠ [] ∧ ∀ c ∈ t, pyIsSpace c = false ∧ c ≠ '"' ∧ c ≠ ']'))

instance goodLocDecidable (t : List Char) : Decidable (goodLoc t) :=
  inferInstanceAs (Decidable (∀ c ∈ t, c ≠ '\n' ∧ c ≠ ']'))

instance goodAgentDecidable (t : List Char) : Decidable (goodAgent t) :=
  inferInstanceAs (Decidable (∀ c ∈ t, c ≠ '\n' ∧ c ≠ '"' ∧ c ≠ ']'))

instance noRBDecidable (l : List Char) : Decidable (noRB l) :=
  inferInstanceAs (Decidable (∀ c ∈ l, c ≠ ']'))

/-- The keys of the table, in insertion order. -/
def keysOf (d : List (List Char × ProcessedLine)) : List (List Char) :=
  d.map Prod.fst

/-- The naive per-URL statistics: filter the records of that URL in input
order, then take length, sum, running max from zero, and the list itself. -/
def naiveStats (u : List Char) (recs : List ParsedLine) : ProcessedLine :=
  ⟨u, ((recs.filter fun p => decide (p.url = u)).map ParsedLine.request_time).length,
   ((recs.filter fun p => decide (p.url = u)).map ParsedLine.request_time).sum,
   ((recs.filter fun p => decide (p.url = u)).map ParsedLine.request_time).foldl
     (fun m t => if t > m then t else m) 0,
   (recs.filter fun p => decide (p.url = u)).map ParsedLine.request_time⟩

/-! ## Concrete lines and instances used to settle the claims -/
/-- A minimal well-formed line in the documented layout. -/
def lineGood : List Char :=
  "a b  c [t] \"m u p\" 1 2 \"r\" \"ua\" \"x\" \"id\" \"rb\" 0.5".toList

/-- A line that fails the grammar. -/
def lineBad : List Char := "x".toList

/-- A line matching the grammar whose trailing token is not a number. -/
def lineBadFloat : List Char :=
  "a b  c [t] \"m u p\" 1 2 \"r\" \"ua\" \"x\" \"id\" \"rb\" abc".toList

/-- A line matching the grammar with a negative trailing number. -/
def lineNeg : List Char :=
  "a b  c [t] \"m u p\" 1 2 \"r\" \"ua\" \"x\" \"id\" \"rb\" -1".toList

/-- Adversarial trailing text: completes the pattern a second time, so the
greedy timestamp group can re-anchor on its `]`. -/
def extraAdv : List Char :=
  "t2] \"m2 u2 p2\" 3 4 \"r2\" \"ua2\" \"x2\" \"i2\" \"rb2\" 9.9".toList

/-- The groups the pattern captures from `lineGood`. -/
def gsGood : List (List Char) :=
  [['a'], ['b'], ['c'], ['t'], ['m'], ['u'], ['p', '"'], ['1'], ['2'],
   ['r'], ['u', 'a'], ['x'], ['i', 'd'], ['r', 'b'], ['0', '.', '5']]

/-- The groups the pattern captures from `lineNeg`. -/
def gsNeg : List (List Char) :=
  [['a'], ['b'], ['c'], ['t'], ['m'], ['u'], ['p', '"'], ['1'], ['2'],
   ['r'], ['u', 'a'], ['x'], ['i', 'd'], ['r', 'b'], ['-', '1']]

/-- The groups the pattern captures from `lineBadFloat`. -/
def gsBadFloat : List (List Char) :=
  [['a'], ['b'], ['c'], ['t'], ['m'], ['u'], ['p', '"'], ['1'], ['2'],
   ['r'], ['u', 'a'], ['x'], ['i', 'd'], ['r', 'b'], ['a', 'b', 'c']]

/-- The fields of `lineGood` as a `LogFields` value. -/
def cf : LogFields :=
  ⟨"a".toList, "b".toList, "c".toList, "t".toList, "m".toList, "u".toList,
   "p".toList, "1".toList, "2".toList, "r".toList, "ua".toList, "x".toList,
   "id".toList, "rb".toList, "0.5".toList⟩

/-- A parsed record with only the URL and request time populated. -/
def simpleRec (u : List Char) (t : ℚ) : ParsedLine :=
  ⟨[], [], [], [], [], u, [], [], [], [], [], [], [], [], t⟩

/-- Number of lines that are malformed in the specification's sense: the
grammar fails or the trailing numeric conversion fails. -/
def specMalformedAmong (lines : List (List Char)) : ℕ :=
  (lines.filter (fun l => (recordOf l).isNone)).length

/-- A one-row `ProcessedLog` used to instantiate the report claims. -/
def cPL : ProcessedLog :=
  ⟨1, 5, [("u".toList, ⟨"u".toList, 1, 5, 5, [5, 5]⟩)]⟩

/-! ## Theorems -/

/-! ## Lemmas about the backtracking matcher -/
theorem tryDown1_eq {β : Type} (f : ℕ → Option β) (n k : ℕ) (hk1 : 1 ≤ k) (hk : k ≤ n)
    (b : β) (hfk : f k = some b) (hother : ∀ j, k < j → j ≤ n → f j = none) :
    tryDown1 f n = some b := by
  induction n with
  | zero => omega
  | succ m ih =>
    by_cases hkm : k = m + 1
    · subst hkm
      simp [tryDown1, hfk]
    · have h1 : f (m + 1) = none := hother (m + 1) (by omega) (by omega)
      simp only [tryDown1, h1]
      exact ih (by omega) (fun j hj hjm => hother j hj (by omega))

theorem tryDown0_eq {β : Type} (f : ℕ → Option β) (n k : ℕ) (hk : k ≤ n)
    (b : β) (hfk : f k = some b) (hother : ∀ j, k < j → j ≤ n → f j = none) :
    tryDown0 f n = some b := by
  induction n with
  | zero =>
    have : k = 0 := by omega
    subst this
    simpa [tryDown0] using hfk
  | succ m ih =>
    by_cases hkm : k = m + 1
    · subst hkm
      simp [tryDown0, hfk]
    · have h1 : f (m + 1) = none := hother (m + 1) (by omega) (by omega)
      simp only [tryDown0, h1]
      exact ih (by omega) (fun j hj hjm => hother j hj (by omega))

theorem tryUpFrom_eq {β : Type} (f : ℕ → Option β) (j : ℕ) :
    ∀ k n, j ≤ n → ∀ b : β, f (k + j) = some b → (∀ i < j, f (k + i) = none) →
      tryUpFrom f k n = some b := by
  induction j with
  | zero =>
    intro k n _ b hfk _
    cases n with
    | zero => simpa [tryUpFrom] using hfk
    | succ m =>
      have hfk' : f k = some b := by simpa using hfk
      simp [tryUpFrom, hfk']
  | succ j ih =>
    intro k n hn b hfk hother
    have h0 : f k = none := by simpa using hother 0 (by omega)
    cases n with
    | zero => omega
    | succ m =>
      simp only [tryUpFrom, h0]
      exact ih (k + 1) m (by omega) b (by simpa [Nat.add_assoc, Nat.add_comm 1 j] using hfk)
        (fun i hi => by simpa [Nat.add_assoc, Nat.add_comm 1 i] using hother (i + 1) (by omega))

theorem litStep_cons (c : Char) (k : List Char → Option (List (List Char))) (s : List Char) :
    litStep c k (c :: s) = k s := by
  simp [litStep]

theorem litStep_cons_ne {c c' : Char} (k : List Char → Option (List (List Char)))
    (s : List Char) (h : c' ≠ c) : litStep c k (c' :: s) = none := by
  simp [litStep, h]

theorem litStep_nil (c : Char) (k : List Char → Option (List (List Char))) :
    litStep c k [] = none := by
  simp [litStep]

/-- A literal atom fails anywhere strictly inside a token free of that
literal. -/
theorem litStep_inside (c : Char) (k : List Char → Option (List (List Char)))
    (tok rest : List Char) (j : ℕ)
    (hj : j < tok.length) (htok : ∀ x ∈ tok, x ≠ c) :
    litStep c k ((tok ++ rest).drop j) = none := by
  rw [List.drop_append_of_le_length (by omega)]
  cases hd : tok.drop j with
  | nil =>
    have := congrArg List.length hd
    simp at this
    omega
  | cons c' t =>
    have hc' : c' ∈ tok := List.drop_subset j tok (by simp [hd])
    rw [List.cons_append]
    exact litStep_cons_ne _ _ (htok c' hc')

/-- A literal atom fails at every position of a suffix free of that
literal (including running off the end). -/
theorem litStep_suffix (c : Char) (k : List Char → Option (List (List Char)))
    (s : List Char) (i : ℕ) (hs : ∀ x ∈ s, x ≠ c) :
    litStep c k (s.drop i) = none := by
  cases hd : s.drop i with
  | nil => exact litStep_nil c k
  | cons c' t =>
    have hc' : c' ∈ s := List.drop_subset i s (by simp [hd])
    exact litStep_cons_ne _ _ (hs c' hc')

/-- Greedy `(\S+)` followed by a space literal, matched against a
space-free token followed by a space: captures the token whenever the
continuation succeeds. -/
theorem matchAtoms_splus_space (tok s : List Char) (as : List Atom) (caps : List (List Char))
    (hne : tok ≠ []) (htok : ∀ c ∈ tok, pyIsSpace c = false)
    (h : matchAtoms as s = some caps) :
    matchAtoms (.splus :: .lit ' ' :: as) (tok ++ ' ' :: s) = some (tok :: caps) := by
  have hrun : (tok ++ ' ' :: s).takeWhile (fun c => !pyIsSpace c) = tok := by
    rw [List.takeWhile_append_of_pos (by simpa using htok)]
    simp [List.takeWhile_cons, pyIsSpace]
  simp only [matchAtoms, hrun]
  refine tryDown1_eq _ _ tok.length (List.length_pos.mpr hne) le_rfl _ ?_
    (fun j hj hjle => by omega)
  rw [List.drop_left, List.take_left, litStep_cons, h]
  rfl

/-- Greedy `(\S+)` followed by a quote literal, matched against a
quote-free token, quote, space: captures the token whenever the
continuation succeeds on the space. -/
theorem matchAtoms_splus_quote (tok s : List Char) (as : List Atom) (caps : List (List Char))
    (hne : tok ≠ []) (htok : ∀ c ∈ tok, pyIsSpace c = false ∧ c ≠ '"')
    (h : matchAtoms as (' ' :: s) = some caps) :
    matchAtoms (.splus :: .lit '"' :: as) (tok ++ '"' :: ' ' :: s) = some (tok :: caps) := by
  have hrun : (tok ++ '"' :: ' ' :: s).takeWhile (fun c => !pyIsSpace c) = tok ++ ['"'] := by
    rw [List.takeWhile_append_of_pos
      (by simpa using fun c hc => (htok c hc).1)]
    simp [List.takeWhile_cons, pyIsSpace]
  simp only [matchAtoms, hrun, List.length_append, List.length_cons, List.length_nil]
  refine tryDown1_eq _ _ tok.length (List.length_pos.mpr hne) (by omega) _ ?_ ?_
  · rw [List.drop_left, List.take_left, litStep_cons, h]
    rfl
  · intro j hj hjle
    have hj1 : j = tok.length + 1 := by omega
    subst hj1
    have hd : (tok ++ '"' :: ' ' :: s).drop (tok.length + 1) = ' ' :: s := by
      rw [List.drop_append]
      rfl
    rw [hd, litStep_cons_ne _ _ (by decide)]
    rfl

/-- Greedy `(.*)` followed by `]`, against a bracket- and newline-free
capture, the bracket, and a bracket-free remainder: captures exactly up to
the bracket whenever the continuation succeeds. -/
theorem matchAtoms_dotG (tl s : List Char) (as : List Atom) (caps : List (List Char))
    (htl : ∀ c ∈ tl, c ≠ '\n' ∧ c ≠ ']') (hs : ∀ c ∈ s, c ≠ ']')
    (h : matchAtoms as s = some caps) :
    matchAtoms (.dotG :: .lit ']' :: as) (tl ++ ']' :: s) = some (tl :: caps) := by
  have hrun : (tl ++ ']' :: s).takeWhile (fun c => decide (c ≠ '\n')) =
      tl ++ (']' :: s).takeWhile (fun c => decide (c ≠ '\n')) := by
    rw [List.takeWhile_append_of_pos]
    simpa using fun c hc => (htl c hc).1
  simp only [matchAtoms, hrun, List.length_append]
  refine tryDown0_eq _ _ tl.length (by omega) _ ?_ ?_
  · rw [List.drop_left, List.take_left, litStep_cons, h]
    rfl
  · intro j hj hjle
    obtain ⟨i, hi⟩ : ∃ i, j = tl.length + (i + 1) := ⟨j - tl.length - 1, by omega⟩
    subst hi
    rw [List.drop_append, List.drop_succ_cons, litStep_suffix _ _ _ _ hs]
    rfl

/-- Lazy `(.*?)` followed by a quote literal, against a quote- and
newline-free capture and the closing quote: captures exactly up to the
quote whenever the continuation succeeds. -/
theorem matchAtoms_dotL (tl s : List Char) (as : List Atom) (caps : List (List Char))
    (htl : ∀ c ∈ tl, c ≠ '\n' ∧ c ≠ '"')
    (h : matchAtoms as s = some caps) :
    matchAtoms (.dotL :: .lit '"' :: as) (tl ++ '"' :: s) = some (tl :: caps) := by
  have hrun : (tl ++ '"' :: s).takeWhile (fun c => decide (c ≠ '\n')) =
      tl ++ ('"' :: s).takeWhile (fun c => decide (c ≠ '\n')) := by
    rw [List.takeWhile_append_of_pos]
    simpa using fun c hc => (htl c hc).1
  simp only [matchAtoms, hrun, List.length_append]
  refine tryUpFrom_eq _ tl.length 0 _ (by omega) _ ?_ ?_
  · simp only [Nat.zero_add]
    rw [List.drop_left, List.take_left, litStep_cons, h]
    rfl
  · intro i hi
    simp only [Nat.zero_add]
    rw [litStep_inside _ _ _ _ _ hi (fun x hx => (htl x hx).2)]
    rfl

theorem matchAtoms_lit_cons (c : Char) (as : List Atom) (s : List Char) :
    matchAtoms (.lit c :: as) (c :: s) = matchAtoms as s := by
  simp [matchAtoms, litStep]

/-- The final greedy `(\S+)` of the pattern: captures the whole trailing
token; anything after a following space is ignored (`re.match` does not
anchor the end). -/
theorem matchAtoms_splus_final (tok rest : List Char)
    (hne : tok ≠ []) (htok : ∀ c ∈ tok, pyIsSpace c = false)
    (hrest : rest = [] ∨ ∃ c t, rest = c :: t ∧ pyIsSpace c = true) :
    matchAtoms [.splus] (tok ++ rest) = some [tok] := by
  have hrun : (tok ++ rest).takeWhile (fun c => !pyIsSpace c) = tok := by
    rw [List.takeWhile_append_of_pos (by simpa using htok)]
    rcases hrest with hrest | ⟨c, t, hct, hc⟩
    · simp [hrest]
    · simp [hct, List.takeWhile_cons, hc]
  simp only [matchAtoms, hrun]
  refine tryDown1_eq _ _ tok.length (List.length_pos.mpr hne) le_rfl _ ?_
    (fun j hj hjle => by omega)
  rw [List.take_left]
  rfl

theorem noRB_append {a b : List Char} (ha : noRB a) (hb : noRB b) : noRB (a ++ b) :=
  fun c hc => (List.mem_append.1 hc).elim (ha c) (hb c)

theorem noRB_cons {c : Char} {t : List Char} (hc : c ≠ ']') (ht : noRB t) : noRB (c :: t) :=
  fun x hx => (List.mem_cons.1 hx).elim (fun h => h ▸ hc) (ht x)

theorem noRB_of_goodTok {t : List Char} (h : goodTok t) : noRB t :=
  fun c hc => (h.2 c hc).2.2

theorem noRB_of_goodAgent {t : List Char} (h : goodAgent t) : noRB t :=
  fun c hc => (h c hc).2.2

theorem goodTok_ns {t : List Char} (h : goodTok t) : ∀ c ∈ t, pyIsSpace c = false :=
  fun c hc => (h.2 c hc).1

theorem goodTok_nsq {t : List Char} (h : goodTok t) :
    ∀ c ∈ t, pyIsSpace c = false ∧ c ≠ '"' :=
  fun c hc => ⟨(h.2 c hc).1, (h.2 c hc).2.1⟩

/-- The backtracking match of the full `log_pattern` against a well-formed
line followed by an arbitrary space-separated tail free of `]`: every field
is captured as laid out, except that the protocol is captured together with
the closing quote of the request (the pattern's quote after the fifth token
is consumed as the opening quote of the referer instead). -/
theorem renderTail_match (f : LogFields) (rest : List Char)
    (ha : goodTok f.addr) (hu : goodTok f.user) (hr : goodTok f.realip)
    (htl : goodLoc f.tloc) (hm : goodTok f.meth) (hurl : goodTok f.urlf)
    (hp : goodTok f.prot) (hst : goodTok f.stat) (hb : goodTok f.nbytes)
    (hrf : goodTok f.refr) (hag : goodAgent f.agent) (hx : goodTok f.xfwd)
    (hq : goodTok f.reqid) (hw : goodTok f.rbuser) (ht : goodTok f.ttok)
    (hrest : rest = [] ∨ ∃ c t, rest = c :: t ∧ pyIsSpace c = true)
    (hrestRB : noRB rest) :
    matchAtoms logPattern (renderTail f rest) =
      some [f.addr, f.user, f.realip, f.tloc, f.meth, f.urlf, f.prot ++ ['"'],
            f.stat, f.nbytes, f.refr, f.agent, f.xfwd, f.reqid, f.rbuser, f.ttok] := by
  have n15 : noRB (f.ttok ++ rest) := noRB_append (noRB_of_goodTok ht) hrestRB
  have n14 : noRB (f.rbuser ++ '"' :: ' ' :: (f.ttok ++ rest)) :=
    noRB_append (noRB_of_goodTok hw)
      (noRB_cons (by decide) (noRB_cons (by decide) n15))
  have n13 : noRB (f.reqid ++ '"' :: ' ' :: '"' :: (f.rbuser ++ '"' :: ' ' :: (f.ttok ++ rest))) :=
    noRB_append (noRB_of_goodTok hq)
      (noRB_cons (by decide) (noRB_cons (by decide) (noRB_cons (by decide) n14)))
  have n12 : noRB (f.xfwd ++ '"' :: ' ' :: '"' ::
      (f.reqid ++ '"' :: ' ' :: '"' :: (f.rbuser ++ '"' :: ' ' :: (f.ttok ++ rest)))) :=
    noRB_append (noRB_of_goodTok hx)
      (noRB_cons (by decide) (noRB_cons (by decide) (noRB_cons (by decide) n13)))
  have n11 : noRB (f.agent ++ '"' :: ' ' :: '"' :: (f.xfwd ++ '"' :: ' ' :: '"' ::
      (f.reqid ++ '"' :: ' ' :: '"' :: (f.rbuser ++ '"' :: ' ' :: (f.ttok ++ rest))))) :=
    noRB_append (noRB_of_goodAgent hag)
      (noRB_cons (by decide) (noRB_cons (by decide) (noRB_cons (by decide) n12)))
  have n10 : noRB (f.refr ++ '"' :: ' ' :: '"' :: (f.agent ++ '"' :: ' ' :: '"' ::
      (f.xfwd ++ '"' :: ' ' :: '"' :: (f.reqid ++ '"' :: ' ' :: '"' ::
        (f.rbuser ++ '"' :: ' ' :: (f.ttok ++ rest)))))) :=
    noRB_append (noRB_of_goodTok hrf)
      (noRB_cons (by decide) (noRB_cons (by decide) (noRB_cons (by decide) n11)))
  have n9 : noRB (f.nbytes ++ ' ' :: '"' :: (f.refr ++ '"' :: ' ' :: '"' ::
      (f.agent ++ '"' :: ' ' :: '"' :: (f.xfwd ++ '"' :: ' ' :: '"' ::
        (f.reqid ++ '"' :: ' ' :: '"' :: (f.rbuser ++ '"' :: ' ' :: (f.ttok ++ rest))))))) :=
    noRB_append (noRB_of_goodTok hb)
      (noRB_cons (by decide) (noRB_cons (by decide) n10))
  have n8 : noRB (f.stat ++ ' ' :: (f.nbytes ++ ' ' :: '"' :: (f.refr ++ '"' :: ' ' :: '"' ::
      (f.agent ++ '"' :: ' ' :: '"' :: (f.xfwd ++ '"' :: ' ' :: '"' ::
        (f.reqid ++ '"' :: ' ' :: '"' :: (f.rbuser ++ '"' :: ' ' :: (f.ttok ++ rest)))))))) :=
    noRB_append (noRB_of_goodTok hst) (noRB_cons (by decide) n9)
  have n7 : noRB ((f.prot ++ ['"']) ++ ' ' :: (f.stat ++ ' ' :: (f.nbytes ++ ' ' :: '"' ::
      (f.refr ++ '"' :: ' ' :: '"' :: (f.agent ++ '"' :: ' ' :: '"' ::
        (f.xfwd ++ '"' :: ' ' :: '"' :: (f.reqid ++ '"' :: ' ' :: '"' ::
          (f.rbuser ++ '"' :: ' ' :: (f.ttok ++ rest))))))))) :=
    noRB_append (noRB_append (noRB_of_goodTok hp)
        (fun c hc => by simp at hc; subst hc; decide))
      (noRB_cons (by decide) n8)
  have n6 : noRB (f.urlf ++ ' ' :: ((f.prot ++ ['"']) ++ ' ' :: (f.stat ++ ' ' ::
      (f.nbytes ++ ' ' :: '"' :: (f.refr ++ '"' :: ' ' :: '"' ::
        (f.agent ++ '"' :: ' ' :: '"' :: (f.xfwd ++ '"' :: ' ' :: '"' ::
          (f.reqid ++ '"' :: ' ' :: '"' :: (f.rbuser ++ '"' :: ' ' :: (f.ttok ++ rest)))))))))) :=
    noRB_append (noRB_of_goodTok hurl) (noRB_cons (by decide) n7)
  have n5 : noRB (f.meth ++ ' ' :: (f.urlf ++ ' ' :: ((f.prot ++ ['"']) ++ ' ' ::
      (f.stat ++ ' ' :: (f.nbytes ++ ' ' :: '"' :: (f.refr ++ '"' :: ' ' :: '"' ::
        (f.agent ++ '"' :: ' ' :: '"' :: (f.xfwd ++ '"' :: ' ' :: '"' ::
          (f.reqid ++ '"' :: ' ' :: '"' :: (f.rbuser ++ '"' :: ' ' :: (f.ttok ++ rest))))))))))) :=
    noRB_append (noRB_of_goodTok hm) (noRB_cons (by decide) n6)
  have h15 : matchAtoms [.splus] (f.ttok ++ rest) = some [f.ttok] :=
    matchAtoms_splus_final _ _ ht.1 (goodTok_ns ht) hrest
  have h14 : matchAtoms [.splus, .lit '"', .lit ' ', .splus]
      (f.rbuser ++ '"' :: ' ' :: (f.ttok ++ rest)) = some [f.rbuser, f.ttok] :=
    matchAtoms_splus_quote _ _ _ _ hw.1 (goodTok_nsq hw)
      (by rw [matchAtoms_lit_cons]; exact h15)
  have h13 : matchAtoms [.splus, .lit '"', .lit ' ', .lit '"', .splus, .lit '"', .lit ' ', .splus]
      (f.reqid ++ '"' :: ' ' :: '"' :: (f.rbuser ++ '"' :: ' ' :: (f.ttok ++ rest))) =
        some [f.reqid, f.rbuser, f.ttok] :=
    matchAtoms_splus_quote _ _ _ _ hq.1 (goodTok_nsq hq)
      (by rw [matchAtoms_lit_cons, matchAtoms_lit_cons]; exact h14)
  have h12 : matchAtoms [.splus, .lit '"', .lit ' ', .lit '"', .splus, .lit '"', .lit ' ',
      .lit '"', .splus, .lit '"', .lit ' ', .splus]
      (f.xfwd ++ '"' :: ' ' :: '"' :: (f.reqid ++ '"' :: ' ' :: '"' ::
        (f.rbuser ++ '"' :: ' ' :: (f.ttok ++ rest)))) =
        some [f.xfwd, f.reqid, f.rbuser, f.ttok] :=
    matchAtoms_splus_quote _ _ _ _ hx.1 (goodTok_nsq hx)
      (by rw [matchAtoms_lit_cons, matchAtoms_lit_cons]; exact h13)
  have h11 : matchAtoms [.dotL, .lit '"', .lit ' ', .lit '"', .splus, .lit '"', .lit ' ',
      .lit '"', .splus, .lit '"', .lit ' ', .lit '"', .splus, .lit '"', .lit ' ', .splus]
      (f.agent ++ '"' :: ' ' :: '"' :: (f.xfwd ++ '"' :: ' ' :: '"' ::
        (f.reqid ++ '"' :: ' ' :: '"' :: (f.rbuser ++ '"' :: ' ' :: (f.ttok ++ rest))))) =
        some [f.agent, f.xfwd, f.reqid, f.rbuser, f.ttok] :=
    matchAtoms_dotL _ _ _ _ (fun c hc => ⟨(hag c hc).1, (hag c hc).2.1⟩)
      (by rw [matchAtoms_lit_cons, matchAtoms_lit_cons]; exact h12)
  have h10 : matchAtoms [.splus, .lit '"', .lit ' ', .lit '"', .dotL, .lit '"', .lit ' ',
      .lit '"', .splus, .lit '"', .lit ' ', .lit '"', .splus, .lit '"', .lit ' ',
      .lit '"', .splus, .lit '"', .lit ' ', .splus]
      (f.refr ++ '"' :: ' ' :: '"' :: (f.agent ++ '"' :: ' ' :: '"' ::
        (f.xfwd ++ '"' :: ' ' :: '"' :: (f.reqid ++ '"' :: ' ' :: '"' ::
          (f.rbuser ++ '"' :: ' ' :: (f.ttok ++ rest)))))) =
        some [f.refr, f.agent, f.xfwd, f.reqid, f.rbuser, f.ttok] :=
    matchAtoms_splus_quote _ _ _ _ hrf.1 (goodTok_nsq hrf)
      (by rw [matchAtoms_lit_cons, matchAtoms_lit_cons]; exact h11)
  have h9 : matchAtoms [.splus, .lit ' ', .lit '"', .splus, .lit '"', .lit ' ', .lit '"',
      .dotL, .lit '"', .lit ' ', .lit '"', .splus, .lit '"', .lit ' ', .lit '"', .splus,
      .lit '"', .lit ' ', .lit '"', .splus, .lit '"', .lit ' ', .splus]
      (f.nbytes ++ ' ' :: '"' :: (f.refr ++ '"' :: ' ' :: '"' ::
        (f.agent ++ '"' :: ' ' :: '"' :: (f.xfwd ++ '"' :: ' ' :: '"' ::
          (f.reqid ++ '"' :: ' ' :: '"' :: (f.rbuser ++ '"' :: ' ' :: (f.ttok ++ rest))))))) =
        some [f.nbytes, f.refr, f.agent, f.xfwd, f.reqid, f.rbuser, f.ttok] :=
    matchAtoms_splus_space _ _ _ _ hb.1 (goodTok_ns hb)
      (by rw [matchAtoms_lit_cons]; exact h10)
  have h8 : matchAtoms [.splus, .lit ' ', .splus, .lit ' ', .lit '"', .splus, .lit '"',
      .lit ' ', .lit '"', .dotL, .lit '"', .lit ' ', .lit '"', .splus, .lit '"', .lit ' ',
      .lit '"', .splus, .lit '"', .lit ' ', .lit '"', .splus, .lit '"', .lit ' ', .splus]
      (f.stat ++ ' ' :: (f.nbytes ++ ' ' :: '"' :: (f.refr ++ '"' :: ' ' :: '"' ::
        (f.agent ++ '"' :: ' ' :: '"' :: (f.xfwd ++ '"' :: ' ' :: '"' ::
          (f.reqid ++ '"' :: ' ' :: '"' :: (f.rbuser ++ '"' :: ' ' :: (f.ttok ++ rest)))))))) =
        some [f.stat, f.nbytes, f.refr, f.agent, f.xfwd, f.reqid, f.rbuser, f.ttok] :=
    matchAtoms_splus_space _ _ _ _ hst.1 (goodTok_ns hst) h9
  have h7 : matchAtoms [.splus, .lit ' ', .splus, .lit ' ', .splus, .lit ' ', .lit '"',
      .splus, .lit '"', .lit ' ', .lit '"', .dotL, .lit '"', .lit ' ', .lit '"', .splus,
      .lit '"', .lit ' ', .lit '"', .splus, .lit '"', .lit ' ', .lit '"', .splus, .lit '"',
      .lit ' ', .splus]
      ((f.prot ++ ['"']) ++ ' ' :: (f.stat ++ ' ' :: (f.nbytes ++ ' ' :: '"' ::
        (f.refr ++ '"' :: ' ' :: '"' :: (f.agent ++ '"' :: ' ' :: '"' ::
          (f.xfwd ++ '"' :: ' ' :: '"' :: (f.reqid ++ '"' :: ' ' :: '"' ::
            (f.rbuser ++ '"' :: ' ' :: (f.ttok ++ rest))))))))) =
        some [f.prot ++ ['"'], f.stat, f.nbytes, f.refr, f.agent, f.xfwd, f.reqid,
          f.rbuser, f.ttok] :=
    matchAtoms_splus_space _ _ _ _ (by simp) (by
      intro c hc
      rcases List.mem_append.1 hc with hc | hc
      · exact goodTok_ns hp c hc
      · simp at hc
        simp [hc, pyIsSpace]) h8
  have h6 : matchAtoms [.splus, .lit ' ', .splus, .lit ' ', .splus, .lit ' ', .splus,
      .lit ' ', .lit '"', .splus, .lit '"', .lit ' ', .lit '"', .dotL, .lit '"', .lit ' ',
      .lit '"', .splus, .lit '"', .lit ' ', .lit '"', .splus, .lit '"', .lit ' ', .lit '"',
      .splus, .lit '"', .lit ' ', .splus]
      (f.urlf ++ ' ' :: ((f.prot ++ ['"']) ++ ' ' :: (f.stat ++ ' ' ::
        (f.nbytes ++ ' ' :: '"' :: (f.refr ++ '"' :: ' ' :: '"' ::
          (f.agent ++ '"' :: ' ' :: '"' :: (f.xfwd ++ '"' :: ' ' :: '"' ::
            (f.reqid ++ '"' :: ' ' :: '"' :: (f.rbuser ++ '"' :: ' ' ::
              (f.ttok ++ rest)))))))))) =
        some [f.urlf, f.prot ++ ['"'], f.stat, f.nbytes, f.refr, f.agent, f.xfwd, f.reqid,
          f.rbuser, f.ttok] :=
    matchAtoms_splus_space _ _ _ _ hurl.1 (goodTok_ns hurl) h7
  have h5 : matchAtoms [.splus, .lit ' ', .splus, .lit ' ', .splus, .lit ' ', .splus,
      .lit ' ', .splus, .lit ' ', .lit '"', .splus, .lit '"', .lit ' ', .lit '"', .dotL,
      .lit '"', .lit ' ', .lit '"', .splus, .lit '"', .lit ' ', .lit '"', .splus, .lit '"',
      .lit ' ', .lit '"', .splus, .lit '"', .lit ' ', .splus]
      (f.meth ++ ' ' :: (f.urlf ++ ' ' :: ((f.prot ++ ['"']) ++ ' ' :: (f.stat ++ ' ' ::
        (f.nbytes ++ ' ' :: '"' :: (f.refr ++ '"' :: ' ' :: '"' ::
          (f.agent ++ '"' :: ' ' :: '"' :: (f.xfwd ++ '"' :: ' ' :: '"' ::
            (f.reqid ++ '"' :: ' ' :: '"' :: (f.rbuser ++ '"' :: ' ' ::
              (f.ttok ++ rest))))))))))) =
        some [f.meth, f.urlf, f.prot ++ ['"'], f.stat, f.nbytes, f.refr, f.agent, f.xfwd,
          f.reqid, f.rbuser, f.ttok] :=
    matchAtoms_splus_space _ _ _ _ hm.1 (goodTok_ns hm) h6
  have h4 : matchAtoms [.dotG, .lit ']', .lit ' ', .lit '"', .splus, .lit ' ', .splus,
      .lit ' ', .splus, .lit ' ', .splus, .lit ' ', .splus, .lit ' ', .lit '"', .splus,
      .lit '"', .lit ' ', .lit '"', .dotL, .lit '"', .lit ' ', .lit '"', .splus, .lit '"',
      .lit ' ', .lit '"', .splus, .lit '"', .lit ' ', .lit '"', .splus, .lit '"', .lit ' ',
      .splus]
      (f.tloc ++ ']' :: ' ' :: '"' :: (f.meth ++ ' ' :: (f.urlf ++ ' ' ::
        ((f.prot ++ ['"']) ++ ' ' :: (f.stat ++ ' ' :: (f.nbytes ++ ' ' :: '"' ::
          (f.refr ++ '"' :: ' ' :: '"' :: (f.agent ++ '"' :: ' ' :: '"' ::
            (f.xfwd ++ '"' :: ' ' :: '"' :: (f.reqid ++ '"' :: ' ' :: '"' ::
              (f.rbuser ++ '"' :: ' ' :: (f.ttok ++ rest)))))))))))) =
        some [f.tloc, f.meth, f.urlf, f.prot ++ ['"'], f.stat, f.nbytes, f.refr, f.agent,
          f.xfwd, f.reqid, f.rbuser, f.ttok] :=
    matchAtoms_dotG _ _ _ _ htl
      (noRB_cons (by decide) (noRB_cons (by decide) n5))
      (by rw [matchAtoms_lit_cons, matchAtoms_lit_cons]; exact h5)
  have h3 : matchAtoms [.splus, .lit ' ', .lit '[', .dotG, .lit ']', .lit ' ', .lit '"',
      .splus, .lit ' ', .splus, .lit ' ', .splus, .lit ' ', .splus, .lit ' ', .splus,
      .lit ' ', .lit '"', .splus, .lit '"', .lit ' ', .lit '"', .dotL, .lit '"', .lit ' ',
      .lit '"', .splus, .lit '"', .lit ' ', .lit '"', .splus, .lit '"', .lit ' ', .lit '"',
      .splus, .lit '"', .lit ' ', .splus]
      (f.realip ++ ' ' :: '[' :: (f.tloc ++ ']' :: ' ' :: '"' :: (f.meth ++ ' ' ::
        (f.urlf ++ ' ' :: ((f.prot ++ ['"']) ++ ' ' :: (f.stat ++ ' ' ::
          (f.nbytes ++ ' ' :: '"' :: (f.refr ++ '"' :: ' ' :: '"' ::
            (f.agent ++ '"' :: ' ' :: '"' :: (f.xfwd ++ '"' :: ' ' :: '"' ::
              (f.reqid ++ '"' :: ' ' :: '"' :: (f.rbuser ++ '"' :: ' ' ::
                (f.ttok ++ rest))))))))))))) =
        some [f.realip, f.tloc, f.meth, f.urlf, f.prot ++ ['"'], f.stat, f.nbytes, f.refr,
          f.agent, f.xfwd, f.reqid, f.rbuser, f.ttok] :=
    matchAtoms_splus_space _ _ _ _ hr.1 (goodTok_ns hr)
      (by rw [matchAtoms_lit_cons]; exact h4)
  have h2 : matchAtoms [.splus, .lit ' ', .lit ' ', .splus, .lit ' ', .lit '[', .dotG,
      .lit ']', .lit ' ', .lit '"', .splus, .lit ' ', .splus, .lit ' ', .splus, .lit ' ',
      .splus, .lit ' ', .splus, .lit ' ', .lit '"', .splus, .lit '"', .lit ' ', .lit '"',
      .dotL, .lit '"', .lit ' ', .lit '"', .splus, .lit '"', .lit ' ', .lit '"', .splus,
      .lit '"', .lit ' ', .lit '"', .splus, .lit '"', .lit ' ', .splus]
      (f.user ++ ' ' :: ' ' :: (f.realip ++ ' ' :: '[' :: (f.tloc ++ ']' :: ' ' :: '"' ::
        (f.meth ++ ' ' :: (f.urlf ++ ' ' :: ((f.prot ++ ['"']) ++ ' ' ::
          (f.stat ++ ' ' :: (f.nbytes ++ ' ' :: '"' :: (f.refr ++ '"' :: ' ' :: '"' ::
            (f.agent ++ '"' :: ' ' :: '"' :: (f.xfwd ++ '"' :: ' ' :: '"' ::
              (f.reqid ++ '"' :: ' ' :: '"' :: (f.rbuser ++ '"' :: ' ' ::
                (f.ttok ++ rest)))))))))))))) =
        some [f.user, f.realip, f.tloc, f.meth, f.urlf, f.prot ++ ['"'], f.stat, f.nbytes,
          f.refr, f.agent, f.xfwd, f.reqid, f.rbuser, f.ttok] :=
    matchAtoms_splus_space _ _ _ _ hu.1 (goodTok_ns hu)
      (by rw [matchAtoms_lit_cons]; exact h3)
  have h1 := matchAtoms_splus_space f.addr _ _ _ ha.1 (goodTok_ns ha) h2
  simpa [logPattern, renderTail] using h1

/-- A well-formed line followed by a space and an arbitrary tail is the line
concatenated with that tail. -/
theorem render_append (f : LogFields) (rest : List Char) :
    render f ++ rest = renderTail f rest := by
  simp [render, renderTail, List.append_assoc]

/-! ## Characterisation of the ingest loop -/
theorem malformedAmong_nil : malformedAmong [] = 0 := rfl

theorem malformedAmong_cons (l : List Char) (L : List (List Char)) :
    malformedAmong (l :: L) =
      (if (lineGroups l).isNone then 1 else 0) + malformedAmong L := by
  by_cases h : (lineGroups l).isNone
  · simp [malformedAmong, h, Nat.add_comm]
  · simp [malformedAmong, h]

theorem parseLogGo_malformed_step (T : ℚ) (l : List Char) (rest : List (List Char))
    (count term : ℕ) (acc : ParsedLog) (logs : List (List Char))
    (hg : lineGroups l = none) :
    parseLogGo T (l :: rest) count term acc logs =
      parseLogGo T rest (count + 1) (term + 1) acc (logs ++ [l]) := by
  simp [parseLogGo, hg]

theorem parseLogGo_badfloat_step (T : ℚ) (l : List Char) (rest : List (List Char))
    (count term : ℕ) (acc : ParsedLog) (logs : List (List Char))
    (gs : List (List Char)) (hg : lineGroups l = some gs)
    (hlt : ¬ T ≤ (term * 100 : ℚ) / (count + 1))
    (hf : pyFloat? (gs.getD 14 []) = none) :
    parseLogGo T (l :: rest) count term acc logs = (.valueError (count + 1), logs) := by
  simp only [parseLogGo, hg]
  rw [if_neg hlt, hf]

/-- If every matched line passes the running threshold check, the loop never
raises the threshold `SystemExit`. -/
theorem parseLogGo_no_threshold (T : ℚ) (L : List (List Char)) :
    ∀ (count term : ℕ) (acc : ParsedLog) (logs : List (List Char)),
      (∀ k < L.length, ∀ gs, lineGroups (L.getD k []) = some gs →
        ¬ T ≤ (((term + malformedAmong (L.take k) : ℕ) : ℚ) * 100) / ((count : ℚ) + k + 1)) →
      ∀ i, (parseLogGo T L count term acc logs).1 ≠ .thresholdExceeded i := by
  induction L with
  | nil =>
    intro count term acc logs _ i
    simp [parseLogGo]
  | cons l L ih =>
    intro count term acc logs hlt i
    cases hg : lineGroups l with
    | none =>
      rw [parseLogGo_malformed_step T l L count term acc logs hg]
      refine ih (count + 1) (term + 1) acc (logs ++ [l]) ?_ i
      intro k hk gs hgs
      have := hlt (k + 1) (by simpa using hk) gs (by simpa using hgs)
      have harith : term + malformedAmong ((l :: L).take (k + 1)) =
          term + 1 + malformedAmong (L.take k) := by
        rw [List.take_succ_cons, malformedAmong_cons, hg]
        simp
        omega
      rw [harith] at this
      convert this using 3
      push_cast
      ring
    | some gs =>
      have h0 := hlt 0 (by simp) gs (by simpa using hg)
      have h0' : ¬ T ≤ ((term : ℚ) * 100) / ((count : ℚ) + 1) := by
        simpa [malformedAmong_nil] using h0
      simp only [parseLogGo, hg, litStep, if_neg h0']
      cases hf : pyFloat? (gs.getD 14 []) with
      | none => simp
      | some q =>
        simp only []
        refine ih (count + 1) term _ logs ?_ i
        intro k hk gs' hgs'
        have := hlt (k + 1) (by simpa using hk) gs' (by simpa using hgs')
        have harith : term + malformedAmong ((l :: L).take (k + 1)) =
            term + malformedAmong (L.take k) := by
          rw [List.take_succ_cons, malformedAmong_cons, hg]
          simp
        rw [harith] at this
        convert this using 3
        push_cast
        ring

/-- The loop aborts with `SystemExit` at the first *matched* line whose
running malformed ratio reaches the threshold, provided every earlier
matched line both passed the check and had a convertible trailing token. -/
theorem parseLogGo_abort (T : ℚ) (L : List (List Char)) :
    ∀ (count term : ℕ) (acc : ParsedLog) (logs : List (List Char)) (k : ℕ),
      k < L.length →
      ∀ gs, lineGroups (L.getD k []) = some gs →
      T ≤ (((term + malformedAmong (L.take k) : ℕ) : ℚ) * 100) / ((count : ℚ) + k + 1) →
      (∀ j < k, ∀ gs', lineGroups (L.getD j []) = some gs' →
        ¬ T ≤ (((term + malformedAmong (L.take j) : ℕ) : ℚ) * 100) / ((count : ℚ) + j + 1)) →
      (∀ j < k, ∀ gs', lineGroups (L.getD j []) = some gs' →
        (pyFloat? (gs'.getD 14 [])).isSome) →
      (parseLogGo T L count term acc logs).1 = .thresholdExceeded (count + k + 1) := by
  induction L with
  | nil =>
    intro count term acc logs k hk
    simp at hk
  | cons l L ih =>
    intro count term acc logs k hk gs hgs hge hlt hflt
    cases k with
    | zero =>
      have hg : lineGroups l = some gs := by simpa using hgs
      have hge' : T ≤ ((term : ℚ) * 100) / ((count : ℚ) + 1) := by
        simpa [malformedAmong_nil] using hge
      simp [parseLogGo, hg, if_pos hge']
    | succ k =>
      cases hg : lineGroups l with
      | none =>
        rw [parseLogGo_malformed_step T l L count term acc logs hg]
        have harith : ∀ j, term + malformedAmong ((l :: L).take (j + 1)) =
            term + 1 + malformedAmong (L.take j) := by
          intro j
          rw [List.take_succ_cons, malformedAmong_cons, hg]
          simp
          omega
        have hout := ih (count + 1) (term + 1) acc (logs ++ [l]) k (by simpa using hk)
          gs (by simpa using hgs)
          (by
            have := hge
            rw [harith k] at this
            convert this using 3
            push_cast
            ring)
          (fun j hj gs' hgs' => by
            have := hlt (j + 1) (by omega) gs' (by simpa using hgs')
            rw [harith j] at this
            convert this using 3
            push_cast
            ring)
          (fun j hj gs' hgs' => hflt (j + 1) (by omega) gs' (by simpa using hgs'))
        rw [hout]
        congr 1
        omega
      | some gs0 =>
        have h0 := hlt 0 (by omega) gs0 (by simpa using hg)
        have h0' : ¬ T ≤ ((term : ℚ) * 100) / ((count : ℚ) + 1) := by
          simpa [malformedAmong_nil] using h0
        have hfl0 : (pyFloat? (gs0.getD 14 [])).isSome :=
          hflt 0 (by omega) gs0 (by simpa using hg)
        obtain ⟨q, hq⟩ := Option.isSome_iff_exists.1 hfl0
        simp only [parseLogGo, hg, if_neg h0', hq]
        have harith : ∀ j, term + malformedAmong ((l :: L).take (j + 1)) =
            term + malformedAmong (L.take j) := by
          intro j
          rw [List.take_succ_cons, malformedAmong_cons, hg]
          simp
        have hout := ih (count + 1) term
          ⟨acc.total_count + 1, acc.total_time + q, acc.parsed_lines ++ [mkRecord gs0 q]⟩
          logs k (by simpa using hk) gs (by simpa using hgs)
          (by
            have := hge
            rw [harith k] at this
            convert this using 3
            push_cast
            ring)
          (fun j hj gs' hgs' => by
            have := hlt (j + 1) (by omega) gs' (by simpa using hgs')
            rw [harith j] at this
            convert this using 3
            push_cast
            ring)
          (fun j hj gs' hgs' => hflt (j + 1) (by omega) gs' (by simpa using hgs'))
        rw [hout]
        congr 1
        omega

/-- A run in which every matched line passes the running threshold check and
has a convertible trailing token returns normally, appending exactly the
records of the matched lines in input order, counting them, summing their
request times, and logging exactly the grammar-rejected lines. -/
theorem parseLogGo_ok (T : ℚ) (L : List (List Char)) :
    ∀ (count term : ℕ) (acc : ParsedLog) (logs : List (List Char)),
      (∀ k < L.length, ∀ gs, lineGroups (L.getD k []) = some gs →
        ¬ T ≤ (((term + malformedAmong (L.take k) : ℕ) : ℚ) * 100) / ((count : ℚ) + k + 1)) →
      (∀ k < L.length, ∀ gs, lineGroups (L.getD k []) = some gs →
        (pyFloat? (gs.getD 14 [])).isSome) →
      parseLogGo T L count term acc logs =
        (.ok ⟨acc.total_count + (L.filterMap recordOf).length,
              acc.total_time + ((L.filterMap recordOf).map ParsedLine.request_time).sum,
              acc.parsed_lines ++ L.filterMap recordOf⟩,
         logs ++ L.filter (fun l => (lineGroups l).isNone)) := by
  induction L with
  | nil =>
    intro count term acc logs _ _
    simp [parseLogGo]
  | cons l L ih =>
    intro count term acc logs hlt hflt
    cases hg : lineGroups l with
    | none =>
      rw [parseLogGo_malformed_step T l L count term acc logs hg]
      have harith : ∀ j, term + malformedAmong ((l :: L).take (j + 1)) =
          term + 1 + malformedAmong (L.take j) := by
        intro j
        rw [List.take_succ_cons, malformedAmong_cons, hg]
        simp
        omega
      have hout := ih (count + 1) (term + 1) acc (logs ++ [l])
        (fun j hj gs' hgs' => by
          have := hlt (j + 1) (by simpa using hj) gs' (by simpa using hgs')
          rw [harith j] at this
          convert this using 3
          push_cast
          ring)
        (fun j hj gs' hgs' => hflt (j + 1) (by simpa using hj) gs' (by simpa using hgs'))
      rw [hout]
      have hrec : recordOf l = none := by simp [recordOf, hg]
      simp [hrec, hg, List.filterMap_cons, List.filter_cons]
    | some gs0 =>
      have h0 := hlt 0 (by simp) gs0 (by simpa using hg)
      have h0' : ¬ T ≤ ((term : ℚ) * 100) / ((count : ℚ) + 1) := by
        simpa [malformedAmong_nil] using h0
      have hfl0 : (pyFloat? (gs0.getD 14 [])).isSome :=
        hflt 0 (by simp) gs0 (by simpa using hg)
      obtain ⟨q, hq⟩ := Option.isSome_iff_exists.1 hfl0
      simp only [parseLogGo, hg, if_neg h0', hq]
      have harith : ∀ j, term + malformedAmong ((l :: L).take (j + 1)) =
          term + malformedAmong (L.take j) := by
        intro j
        rw [List.take_succ_cons, malformedAmong_cons, hg]
        simp
      have hout := ih (count + 1) term
        ⟨acc.total_count + 1, acc.total_time + q, acc.parsed_lines ++ [mkRecord gs0 q]⟩
        logs
        (fun j hj gs' hgs' => by
          have := hlt (j + 1) (by simpa using hj) gs' (by simpa using hgs')
          rw [harith j] at this
          convert this using 3
          push_cast
          ring)
        (fun j hj gs' hgs' => hflt (j + 1) (by simpa using hj) gs' (by simpa using hgs'))
      rw [hout]
      have hrec : recordOf l = some (mkRecord gs0 q) := by
        simp only [recordOf, hg, Option.some_bind]
        rw [hq]
        rfl
      simp only [List.filterMap_cons, hrec, List.filter_cons, hg, Option.isNone_some,
        List.length_cons, List.map_cons, List.sum_cons, Prod.mk.injEq,
        IngestOutcome.ok.injEq, ParsedLog.mk.injEq, Bool.false_eq_true, if_false]
      exact ⟨⟨by omega, by simp only [mkRecord]; ring, by simp⟩, trivial⟩

/-! ## Characterisation of the aggregator -/
theorem lookupUrl_setUrl (u u' : List Char) (v : ProcessedLine)
    (d : List (List Char × ProcessedLine)) :
    lookupUrl u (setUrl u' v d) = if u' = u then some v else lookupUrl u d := by
  induction d with
  | nil => simp [setUrl, lookupUrl]
  | cons e rest ih =>
    simp only [setUrl]
    by_cases he : e.1 = u'
    · rw [if_pos he]
      by_cases heu : u' = u
      · simp [lookupUrl, heu]
      · have hne : ¬ e.1 = u := fun h => heu (he.symm.trans h)
        simp [lookupUrl, heu, hne]
    · rw [if_neg he]
      by_cases heu : e.1 = u
      · have h2 : ¬ u' = u := fun h => he (heu.trans h.symm)
        simp [lookupUrl, heu, h2]
      · simp [lookupUrl, heu, ih]

/-- Folding records into the table extends an existing entry by exactly that
URL's records, in order. -/
theorem lookupUrl_foldl_some (recs : List ParsedLine) :
    ∀ (d : List (List Char × ProcessedLine)) (u : List Char) (pl : ProcessedLine),
      lookupUrl u d = some pl →
      lookupUrl u (recs.foldl foldLine d) =
        some ((recs.filter fun p => decide (p.url = u)).foldl
          (fun pl p => updLine pl p.request_time) pl) := by
  induction recs with
  | nil => intro d u pl h; simpa using h
  | cons p rest ih =>
    intro d u pl h
    rw [List.foldl_cons]
    by_cases hpu : p.url = u
    · have hlk : lookupUrl p.url d = some pl := hpu ▸ h
      have hd' : lookupUrl u (foldLine d p) = some (updLine pl p.request_time) := by
        rw [foldLine, lookupUrl_setUrl, if_pos hpu, hlk]
        rfl
      rw [ih (foldLine d p) u (updLine pl p.request_time) hd']
      simp [List.filter_cons, hpu]
    · have hd' : lookupUrl u (foldLine d p) = some pl := by
        rw [foldLine, lookupUrl_setUrl, if_neg hpu]
        exact h
      rw [ih (foldLine d p) u pl hd']
      simp [List.filter_cons, hpu]

/-- Folding records into the table creates an absent entry exactly when the
URL occurs, and its value is the per-URL fold from the fresh aggregate. -/
theorem lookupUrl_foldl_none (recs : List ParsedLine) :
    ∀ (d : List (List Char × ProcessedLine)) (u : List Char),
      lookupUrl u d = none →
      lookupUrl u (recs.foldl foldLine d) =
        if (recs.filter fun p => decide (p.url = u)) = [] then none
        else some ((recs.filter fun p => decide (p.url = u)).foldl
          (fun pl p => updLine pl p.request_time) (initLine u)) := by
  induction recs with
  | nil => intro d u h; simpa using h
  | cons p rest ih =>
    intro d u h
    rw [List.foldl_cons]
    by_cases hpu : p.url = u
    · subst hpu
      have hd' : lookupUrl p.url (foldLine d p) =
          some (updLine (initLine p.url) p.request_time) := by
        rw [foldLine, lookupUrl_setUrl, if_pos rfl, h]
        rfl
      rw [lookupUrl_foldl_some rest (foldLine d p) p.url _ hd']
      have hfc : (List.filter (fun q => decide (q.url = p.url)) (p :: rest)) =
          p :: List.filter (fun q => decide (q.url = p.url)) rest := by
        simp [List.filter_cons]
      rw [hfc, if_neg (by simp)]
      rfl
    · have hd' : lookupUrl u (foldLine d p) = none := by
        rw [foldLine, lookupUrl_setUrl, if_neg hpu]
        exact h
      rw [ih (foldLine d p) u hd']
      simp [List.filter_cons, hpu]

theorem lookupUrl_eq_none_iff (u : List Char) (d : List (List Char × ProcessedLine)) :
    lookupUrl u d = none ↔ u ∉ keysOf d := by
  induction d with
  | nil => simp [lookupUrl, keysOf]
  | cons e rest ih =>
    simp only [lookupUrl, keysOf, List.map_cons, List.mem_cons]
    by_cases he : e.1 = u
    · rw [if_pos he]
      constructor
      · intro h
        exact absurd h (Option.some_ne_none _)
      · intro h
        exact absurd (Or.inl he.symm) h
    · rw [if_neg he]
      simp only [keysOf] at ih
      rw [ih]
      have hne : ¬ u = e.1 := fun h => he h.symm
      constructor
      · intro h hmem
        rcases hmem with h1 | h2
        · exact hne h1
        · exact h h2
      · intro h hmem
        exact h (Or.inr hmem)

theorem keysOf_setUrl (u : List Char) (v : ProcessedLine)
    (d : List (List Char × ProcessedLine)) :
    keysOf (setUrl u v d) = if u ∈ keysOf d then keysOf d else keysOf d ++ [u] := by
  induction d with
  | nil => simp [setUrl, keysOf]
  | cons e rest ih =>
    by_cases he : e.1 = u
    · rw [show setUrl u v (e :: rest) = (u, v) :: rest from by simp [setUrl, he]]
      have hmem : u ∈ keysOf (e :: rest) := by
        simp only [keysOf, List.map_cons, List.mem_cons]
        exact Or.inl he.symm
      rw [if_pos hmem]
      simp [keysOf, he]
    · rw [show setUrl u v (e :: rest) = e :: setUrl u v rest from by simp [setUrl, he]]
      simp only [keysOf, List.map_cons] at ih ⊢
      rw [ih]
      have hne : ¬ u = e.1 := fun h => he h.symm
      by_cases hu : u ∈ rest.map Prod.fst
      · simp [hu, hne]
      · simp [hu, hne]

theorem nodup_keys_setUrl (u : List Char) (v : ProcessedLine)
    (d : List (List Char × ProcessedLine)) (h : (keysOf d).Nodup) :
    (keysOf (setUrl u v d)).Nodup := by
  rw [keysOf_setUrl]
  by_cases hu : u ∈ keysOf d
  · simpa [hu] using h
  · simp only [if_neg hu]
    simp [List.nodup_append, h, hu]

theorem nodup_keys_foldl (recs : List ParsedLine) :
    ∀ d, (keysOf d).Nodup → (keysOf (recs.foldl foldLine d)).Nodup := by
  induction recs with
  | nil => intro d h; simpa using h
  | cons p rest ih =>
    intro d h
    rw [List.foldl_cons]
    exact ih _ (nodup_keys_setUrl _ _ _ h)

theorem mem_iff_lookupUrl (d : List (List Char × ProcessedLine))
    (h : (keysOf d).Nodup) (u : List Char) (pl : ProcessedLine) :
    (u, pl) ∈ d ↔ lookupUrl u d = some pl := by
  induction d with
  | nil => simp [lookupUrl]
  | cons e rest ih =>
    simp only [keysOf, List.map_cons, List.nodup_cons] at h
    by_cases he : e.1 = u
    · have hnr : (u, pl) ∉ rest := by
        intro hm
        exact h.1 (he ▸ List.mem_map.2 ⟨(u, pl), hm, rfl⟩)
      simp only [lookupUrl, if_pos he, List.mem_cons]
      constructor
      · rintro (rfl | hm)
        · rfl
        · exact absurd hm hnr
      · intro hs
        left
        have : e.2 = pl := by simpa using hs
        rw [← this, ← he]
    · simp only [lookupUrl, if_neg he, List.mem_cons]
      rw [← ih h.2]
      constructor
      · rintro (rfl | hm)
        · exact absurd rfl he
        · exact hm
      · exact Or.inr

/-- The report-inclusion pass keeps exactly the entries whose time sum
reaches the threshold, in order, accumulating their counts and times. -/
theorem foldl_filterStep_eq (rs : ℚ) (tmp : List (List Char × ProcessedLine)) :
    ∀ acc, tmp.foldl (filterStep rs) acc =
      ⟨acc.total_count + ((tmp.filter fun e => decide (rs ≤ e.2.time_sum)).map
          fun e => e.2.count).sum,
       acc.total_time + ((tmp.filter fun e => decide (rs ≤ e.2.time_sum)).map
          fun e => e.2.time_sum).sum,
       acc.data ++ tmp.filter fun e => decide (rs ≤ e.2.time_sum)⟩ := by
  induction tmp with
  | nil => intro acc; simp
  | cons e t ih =>
    intro acc
    rw [List.foldl_cons]
    by_cases hle : rs ≤ e.2.time_sum
    · rw [show filterStep rs acc e =
          ⟨acc.total_count + e.2.count, acc.total_time + e.2.time_sum, acc.data ++ [e]⟩
          from by simp [filterStep, hle]]
      rw [ih]
      simp only [List.filter_cons, decide_eq_true_eq, if_pos hle, List.map_cons,
        List.sum_cons, ProcessedLog.mk.injEq]
      refine ⟨by omega, by ring, by simp⟩
    · rw [show filterStep rs acc e = acc from by simp [filterStep, hle]]
      rw [ih]
      simp only [List.filter_cons, decide_eq_true_eq, if_neg hle]

/-- Folding times one by one accumulates count, sum, running max and the
ordered list. -/
theorem foldl_updLine_eq (ts : List ℚ) :
    ∀ pl : ProcessedLine,
      ts.foldl updLine pl =
        ⟨pl.url, pl.count + ts.length, pl.time_sum + ts.sum,
         ts.foldl (fun m t => if t > m then t else m) pl.time_max,
         pl.time_list ++ ts⟩ := by
  induction ts with
  | nil => intro pl; simp
  | cons t ts ih =>
    intro pl
    rw [List.foldl_cons, ih (updLine pl t)]
    simp only [updLine, List.length_cons, List.sum_cons, List.foldl_cons,
      ProcessedLine.mk.injEq]
    and_intros
    · trivial
    · ring
    · ring
    · trivial
    · simp

/-- The fold over one URL's records equals the fold over their times. -/
theorem foldl_updRecord_eq (ms : List ParsedLine) (pl : ProcessedLine) :
    ms.foldl (fun pl p => updLine pl p.request_time) pl =
      (ms.map ParsedLine.request_time).foldl updLine pl :=
  (List.foldl_map _ _ _ _).symm

/-- The table built by the first loop of `process_log`, looked up at `u`,
holds exactly the naive statistics of `u`, and holds them exactly when some
record has that URL. -/
theorem lookupUrl_tmp (recs : List ParsedLine) (u : List Char) :
    lookupUrl u (recs.foldl foldLine []) =
      if (recs.filter fun p => decide (p.url = u)) = [] then none
      else some (naiveStats u recs) := by
  rw [lookupUrl_foldl_none recs [] u rfl]
  by_cases hms : (recs.filter fun p => decide (p.url = u)) = []
  · simp [hms]
  · rw [if_neg hms, if_neg hms, foldl_updRecord_eq, foldl_updLine_eq]
    simp [initLine, naiveStats]

/-! ## Rounding and median -/
/-- Round-half-to-even moves a rational by at most one half. -/
theorem abs_halfEven_sub (q : ℚ) : |(halfEven q : ℚ) - q| ≤ 1 / 2 := by
  have h0 : (0 : ℚ) ≤ q - ⌊q⌋ := sub_nonneg.2 (Int.floor_le q)
  have h1 : q - ⌊q⌋ < 1 := sub_left_lt_of_lt_add (Int.lt_floor_add_one q)
  unfold halfEven
  split_ifs with hlt hgt hev
  · rw [abs_sub_comm, abs_of_nonneg h0]
    linarith
  · rw [abs_of_nonneg (by push_cast; linarith)]
    push_cast
    linarith
  · have : q - ⌊q⌋ = 1 / 2 := le_antisymm (not_lt.1 hgt) (not_lt.1 hlt)
    rw [abs_sub_comm, abs_of_nonneg h0, this]
  · have : q - ⌊q⌋ = 1 / 2 := le_antisymm (not_lt.1 hgt) (not_lt.1 hlt)
    rw [abs_of_nonneg (by push_cast; linarith), ]
    push_cast
    linarith

/-- `round(x, nrd)` moves a rational by at most half of the last retained
decimal place. -/
theorem abs_pyRound_sub (nrd : ℕ) (x : ℚ) :
    |pyRound nrd x - x| ≤ 1 / (2 * 10 ^ nrd) := by
  have hpow : (0 : ℚ) < 10 ^ nrd := by positivity
  have h1 : pyRound nrd x - x = ((halfEven (x * 10 ^ nrd) : ℚ) - x * 10 ^ nrd) / 10 ^ nrd := by
    rw [pyRound]
    field_simp
    ring
  rw [h1, abs_div, abs_of_pos hpow]
  rw [div_le_div_iff hpow (by positivity)]
  have := abs_halfEven_sub (x * 10 ^ nrd)
  calc |(halfEven (x * 10 ^ nrd) : ℚ) - x * 10 ^ nrd| * (2 * 10 ^ nrd)
      ≤ (1 / 2) * (2 * 10 ^ nrd) := by
        apply mul_le_mul_of_nonneg_right this
        positivity
    _ = 1 * 10 ^ nrd := by ring

/-- Summing rounded values moves the sum by at most `n` half-places. -/
theorem abs_sum_pyRound_sub (nrd : ℕ) (xs : List ℚ) :
    |(xs.map (pyRound nrd)).sum - xs.sum| ≤ xs.length * (1 / (2 * 10 ^ nrd)) := by
  induction xs with
  | nil => simp
  | cons x xs ih =>
    simp only [List.map_cons, List.sum_cons, List.length_cons]
    have h1 := abs_pyRound_sub nrd x
    calc |pyRound nrd x + (xs.map (pyRound nrd)).sum - (x + xs.sum)|
        = |(pyRound nrd x - x) + ((xs.map (pyRound nrd)).sum - xs.sum)| := by ring_nf
      _ ≤ |pyRound nrd x - x| + |(xs.map (pyRound nrd)).sum - xs.sum| := abs_add _ _
      _ ≤ 1 / (2 * 10 ^ nrd) + xs.length * (1 / (2 * 10 ^ nrd)) := by
          exact add_le_add h1 ih
      _ = (xs.length + 1) * (1 / (2 * 10 ^ nrd)) := by ring
      _ = ((xs.length : ℚ) + 1) * (1 / (2 * 10 ^ nrd)) := by norm_num
    push_cast
    ring_nf
    exact le_refl _

/-- `statistics.median` agrees with the textbook definition on any sorted
permutation of the data: the middle element for odd length, the mean of the
two middle elements for even length. -/
theorem pymedian_eq_sorted (l s : List ℚ) (hperm : s.Perm l) (hsort : s.Sorted (· ≤ ·)) :
    pymedian l =
      if s.length % 2 = 1 then s.getD (s.length / 2) 0
      else (s.getD (s.length / 2 - 1) 0 + s.getD (s.length / 2) 0) / 2 := by
  have hs : s = l.mergeSort := by
    refine List.eq_of_perm_of_sorted (hperm.trans (List.mergeSort_perm l _).symm) hsort ?_
    exact List.sorted_mergeSort' l
  subst hs
  rw [pymedian]
  by_cases h0 : (l.mergeSort).length = 0
  · rw [if_pos h0]
    rw [List.length_eq_zero.1 h0]
    norm_num
  · rw [if_neg h0]

/-! ## Top-level wrappers for the ingest loop -/
theorem mem_of_getD (L : List (List Char)) (k : ℕ) (hk : k < L.length) :
    L.getD k [] ∈ L := by
  rw [List.getD_eq_getElem L [] hk]
  exact List.getElem_mem hk

theorem malformedAmong_append (a b : List (List Char)) :
    malformedAmong (a ++ b) = malformedAmong a + malformedAmong b := by
  simp [malformedAmong, List.filter_append]

theorem malformedAmong_take_succ_matched (L : List (List Char)) (k : ℕ)
    (hk : k < L.length) (gs : List (List Char))
    (h : lineGroups (L.getD k []) = some gs) :
    malformedAmong (L.take (k + 1)) = malformedAmong (L.take k) := by
  rw [List.take_succ, malformedAmong_append]
  have h9 : L[k]? = some (L.getD k []) := by
    rw [List.getElem?_eq_getElem hk, List.getD_eq_getElem L [] hk]
  have h' : lineGroups (L[k]?.getD []) = some gs := by
    rw [h9]
    exact h
  rw [h9, show (some (L.getD k [])).toList = [L.getD k []] from rfl]
  have hz : malformedAmong [L.getD k []] = 0 := by
    simp [malformedAmong, h']
  rw [hz]
  omega

theorem parse_log_abort (T : ℚ) (lines : List (List Char)) (k : ℕ)
    (hk : k < lines.length) (gs : List (List Char))
    (hgs : lineGroups (lines.getD k []) = some gs)
    (hge : T ≤ (malformedAmong (lines.take k) : ℚ) * 100 / ((k : ℚ) + 1))
    (hmin : ∀ j < k, ∀ gs', lineGroups (lines.getD j []) = some gs' →
      ¬ T ≤ (malformedAmong (lines.take j) : ℚ) * 100 / ((j : ℚ) + 1))
    (hnc : ∀ j < k, ∀ gs', lineGroups (lines.getD j []) = some gs' →
      (pyFloat? (gs'.getD 14 [])).isSome) :
    (parse_log T lines).1 = .thresholdExceeded (k + 1) := by
  have h := parseLogGo_abort T lines 0 0 ⟨0, 0, []⟩ [] k hk gs hgs
    (by simpa using hge)
    (fun j hj gs' hgs' => by simpa using hmin j hj gs' hgs')
    (fun j hj gs' hgs' => hnc j hj gs' hgs')
  simpa [parse_log] using h

theorem parse_log_no_abort (T : ℚ) (lines : List (List Char))
    (hlt : ∀ k < lines.length, ∀ gs, lineGroups (lines.getD k []) = some gs →
      ¬ T ≤ (malformedAmong (lines.take k) : ℚ) * 100 / ((k : ℚ) + 1)) :
    ∀ i, (parse_log T lines).1 ≠ .thresholdExceeded i := by
  intro i
  exact parseLogGo_no_threshold T lines 0 0 ⟨0, 0, []⟩ []
    (fun k hk gs hgs => by simpa using hlt k hk gs hgs) i

theorem parse_log_ok (T : ℚ) (lines : List (List Char))
    (hlt : ∀ k < lines.length, ∀ gs, lineGroups (lines.getD k []) = some gs →
      ¬ T ≤ (malformedAmong (lines.take k) : ℚ) * 100 / ((k : ℚ) + 1))
    (hnc : ∀ k < lines.length, ∀ gs, lineGroups (lines.getD k []) = some gs →
      (pyFloat? (gs.getD 14 [])).isSome) :
    parse_log T lines =
      (.ok ⟨(lines.filterMap recordOf).length,
            ((lines.filterMap recordOf).map ParsedLine.request_time).sum,
            lines.filterMap recordOf⟩,
       lines.filter (fun l => (lineGroups l).isNone)) := by
  have h := parseLogGo_ok T lines 0 0 ⟨0, 0, []⟩ []
    (fun k hk gs hgs => by simpa using hlt k hk gs hgs)
    (fun k hk gs hgs => hnc k hk gs hgs)
  simpa [parse_log] using h

/-! ## The claims -/
/-- C1 (amended): with `terminated_percent = T`, the ingest loop aborts with
`ThresholdExceeded` at the first *grammar-matching* line index `i` at which
`malformed_so_far * 100 / i ≥ T` (the check is skipped on malformed lines,
which `continue` past it), provided every earlier matching line had a
numeric trailing token; and it never aborts when the ratio stays strictly
below `T` at every grammar-matching index. -/
theorem c1_ingest_abort_amended (T : ℚ) (lines : List (List Char)) :
    (∀ k, k < lines.length → ∀ gs, lineGroups (lines.getD k []) = some gs →
      T ≤ (malformedAmong (lines.take k) : ℚ) * 100 / ((k : ℚ) + 1) →
      (∀ j < k, ∀ gs', lineGroups (lines.getD j []) = some gs' →
        ¬ T ≤ (malformedAmong (lines.take j) : ℚ) * 100 / ((j : ℚ) + 1)) →
      (∀ j < k, ∀ gs', lineGroups (lines.getD j []) = some gs' →
        (pyFloat? (gs'.getD 14 [])).isSome) →
      (parse_log T lines).1 = .thresholdExceeded (k + 1)) ∧
    ((∀ k, k < lines.length → ∀ gs, lineGroups (lines.getD k []) = some gs →
      ¬ T ≤ (malformedAmong (lines.take k) : ℚ) * 100 / ((k : ℚ) + 1)) →
      ∀ i, (parse_log T lines).1 ≠ .thresholdExceeded i) :=
  ⟨fun k hk gs hgs hge hmin hnc => parse_log_abort T lines k hk gs hgs hge hmin hnc,
   fun hlt => parse_log_no_abort T lines (fun k hk gs hgs => hlt k hk gs hgs)⟩

/-- C1 counterexample: a single malformed line with `T = 50`. At line index
1 the ratio `1 * 100 / 1 = 100` reaches the threshold, so the claim as
stated demands an abort, but the run returns a normal (empty) result —
the check is never reached on a malformed line. -/
theorem c1_counterexample :
    (50 : ℚ) ≤ (malformedAmong [lineBad] : ℚ) * 100 / 1 ∧
    parse_log 50 [lineBad] = (.ok ⟨0, 0, []⟩, [lineBad]) := by
  constructor
  · norm_num [show malformedAmong [lineBad] = 1 from by decide]
  · rw [parse_log, parseLogGo_malformed_step 50 lineBad [] 0 0 ⟨0, 0, []⟩ []
      (by decide)]
    simp [parseLogGo]

/-- C1 witness: `[lineBad, lineGood]` with `T = 50` aborts at line 2, the
first matching line, where `1 * 100 / 2 = 50 ≥ 50`. -/
theorem c1_witness :
    (parse_log 50 [lineBad, lineGood]).1 = .thresholdExceeded 2 := by
  refine (c1_ingest_abort_amended 50 [lineBad, lineGood]).1 1 (by simp) gsGood
    (by decide) ?_ ?_ ?_
  · norm_num [show malformedAmong [lineBad] = 1 from by decide]
  · intro j hj gs' hgs'
    have hj0 : j = 0 := by omega
    subst hj0
    have hnone : lineGroups ([lineBad, lineGood].getD 0 []) = none := by decide
    rw [hnone] at hgs'
    cases hgs'
  · intro j hj gs' hgs'
    have hj0 : j = 0 := by omega
    subst hj0
    have hnone : lineGroups ([lineBad, lineGood].getD 0 []) = none := by decide
    rw [hnone] at hgs'
    cases hgs'

/-- C2 (amended): a line that fails the grammar match is counted in the
malformed counter, logged with its full text, and skipped — the loop simply
continues on the remaining lines with no record produced and no abort at
that line. But a line that *matches* the grammar while its trailing token is
not a valid number is not treated as malformed: after the (passed) threshold
check, the `float` conversion raises an uncaught `ValueError` that aborts
the whole run, without counting or logging the line. -/
theorem c2_malformed_handling_amended :
    (∀ (T : ℚ) (l : List Char) (rest : List (List Char)) (count term : ℕ)
        (acc : ParsedLog) (logs : List (List Char)),
      lineGroups l = none →
      parseLogGo T (l :: rest) count term acc logs =
        parseLogGo T rest (count + 1) (term + 1) acc (logs ++ [l])) ∧
    (∀ (T : ℚ) (l : List Char) (rest : List (List Char)) (count term : ℕ)
        (acc : ParsedLog) (logs : List (List Char)) (gs : List (List Char)),
      lineGroups l = some gs →
      ¬ T ≤ (term * 100 : ℚ) / (count + 1) →
      pyFloat? (gs.getD 14 []) = none →
      parseLogGo T (l :: rest) count term acc logs = (.valueError (count + 1), logs)) :=
  ⟨fun T l rest count term acc logs hg =>
      parseLogGo_malformed_step T l rest count term acc logs hg,
   fun T l rest count term acc logs gs hg hlt hf =>
      parseLogGo_badfloat_step T l rest count term acc logs gs hg hlt hf⟩

/-- C2 counterexample: `lineBadFloat` matches the grammar but its trailing
token `abc` is not a number. The claim says it is counted, logged and
skipped; instead the run dies with the uncaught `ValueError` and the
diagnostic log stays empty. -/
theorem c2_counterexample :
    pyFloat? "abc".toList = none ∧
    parse_log 100 [lineBadFloat] = (.valueError 1, []) := by
  constructor
  · simp [pyFloat?, show pyFloatRep? ['a', 'b', 'c'] = none from by decide]
  · rw [parse_log]
    exact parseLogGo_badfloat_step 100 lineBadFloat [] 0 0 ⟨0, 0, []⟩ [] gsBadFloat
      (by decide) (by norm_num)
      (by simp [gsBadFloat, pyFloat?, show pyFloatRep? ['a', 'b', 'c'] = none from by decide])

/-- C2 witness: the malformed step on `lineBad` and the uncaught-error step
on `lineBadFloat`, at the loop's initial state. -/
theorem c2_witness :
    parseLogGo 100 [lineBad] 0 0 ⟨0, 0, []⟩ [] =
      parseLogGo 100 [] 1 1 ⟨0, 0, []⟩ [lineBad] ∧
    parseLogGo 100 [lineBadFloat] 0 0 ⟨0, 0, []⟩ [] = (.valueError 1, []) := by
  constructor
  · exact c2_malformed_handling_amended.1 100 lineBad [] 0 0 ⟨0, 0, []⟩ [] (by decide)
  · exact c2_malformed_handling_amended.2 100 lineBadFloat [] 0 0 ⟨0, 0, []⟩ [] gsBadFloat
      (by decide) (by norm_num)
      (by simp [gsBadFloat, pyFloat?, show pyFloatRep? ['a', 'b', 'c'] = none from by decide])

/-- Every record of a normally returned `ParsedLog` originates from an input
line that matched the grammar and whose trailing token converted. -/
theorem parseLogGo_provenance (T : ℚ) (L : List (List Char)) :
    ∀ (count term : ℕ) (acc : ParsedLog) (logs : List (List Char))
      (r : ParsedLog) (lg : List (List Char)),
      parseLogGo T L count term acc logs = (.ok r, lg) →
      ∀ p ∈ r.parsed_lines, p ∈ acc.parsed_lines ∨
        ∃ l ∈ L, ∃ gs q, lineGroups l = some gs ∧
          pyFloat? (gs.getD 14 []) = some q ∧ p = mkRecord gs q := by
  induction L with
  | nil =>
    intro count term acc logs r lg h p hp
    left
    have h1 : acc = r := by
      have := congrArg Prod.fst h
      simpa [parseLogGo] using this
    rw [h1]
    exact hp
  | cons l L ih =>
    intro count term acc logs r lg h p hp
    cases hg : lineGroups l with
    | none =>
      rw [parseLogGo_malformed_step T l L count term acc logs hg] at h
      rcases ih (count + 1) (term + 1) acc (logs ++ [l]) r lg h p hp with hm | ⟨l', hl', rest⟩
      · exact Or.inl hm
      · exact Or.inr ⟨l', List.mem_cons_of_mem l hl', rest⟩
    | some gs =>
      by_cases hth : T ≤ (term * 100 : ℚ) / (count + 1)
      · rw [show parseLogGo T (l :: L) count term acc logs =
            (.thresholdExceeded (count + 1), logs) from by
              simp only [parseLogGo, hg]
              rw [if_pos hth]] at h
        simp at h
      · cases hf : pyFloat? (gs.getD 14 []) with
        | none =>
          rw [parseLogGo_badfloat_step T l L count term acc logs gs hg hth hf] at h
          simp at h
        | some q =>
          rw [show parseLogGo T (l :: L) count term acc logs =
              parseLogGo T L (count + 1) term
                ⟨acc.total_count + 1, acc.total_time + q,
                 acc.parsed_lines ++ [mkRecord gs q]⟩ logs from by
                simp only [parseLogGo, hg]
                rw [if_neg hth, hf]] at h
          rcases ih (count + 1) term _ logs r lg h p hp with hm | ⟨l', hl', rest⟩
          · rcases List.mem_append.1 hm with hm' | hm'
            · exact Or.inl hm'
            · have hpq : p = mkRecord gs q := by simpa using hm'
              exact Or.inr ⟨l, List.mem_cons_self l L, gs, q, hg, hf, hpq⟩
          · exact Or.inr ⟨l', List.mem_cons_of_mem l hl', rest⟩

/-- C5 (amended): every `ParsedLine` in a normally returned result comes
from an input line that matched the grammar and whose trailing token
converted to a number, and its `request_time` is exactly that number; a line
failing the grammar or the conversion never yields a record. The source
places no sign restriction: the request time need not be non-negative. -/
theorem c5_record_invariant_amended (T : ℚ) (lines : List (List Char))
    (r : ParsedLog) (lg : List (List Char))
    (h : parse_log T lines = (.ok r, lg)) :
    ∀ p ∈ r.parsed_lines, ∃ l ∈ lines, ∃ gs q, lineGroups l = some gs ∧
      pyFloat? (gs.getD 14 []) = some q ∧ p = mkRecord gs q ∧ p.request_time = q := by
  intro p hp
  have hgo := parseLogGo_provenance T lines 0 0 ⟨0, 0, []⟩ [] r lg h p hp
  rcases hgo with hm | ⟨l, hl, gs, q, h1, h2, h3⟩
  · simp at hm
  · exact ⟨l, hl, gs, q, h1, h2, h3, by rw [h3]; rfl⟩

/-- C5 counterexample: a grammar-matching line with trailing token `-1`
produces a `ParsedLine` whose `request_time` is negative, refuting the
claimed non-negativity invariant. -/
theorem c5_counterexample :
    ∃ r lg, parse_log 100 [lineNeg] = (.ok r, lg) ∧
      r.parsed_lines.any (fun p => decide (p.request_time < 0)) = true := by
  refine ⟨⟨1, -1, [mkRecord gsNeg (-1)]⟩, [], ?_, ?_⟩
  · rw [parse_log]
    simp only [parseLogGo, show lineGroups lineNeg = some gsNeg from by decide]
    rw [if_neg (by norm_num)]
    rw [show pyFloat? (gsNeg.getD 14 []) = some (-1) from by
      simp [gsNeg, pyFloat?, show pyFloatRep? ['-', '1'] = some (-1, 0) from by decide]]
    norm_num
  · simp only [List.any_cons, List.any_nil, Bool.or_false, decide_eq_true_eq]
    norm_num [mkRecord]

/-- C5 witness: the record of `lineGood` originates from it, with request
time `0.5`. -/
theorem c5_witness :
    ∃ l ∈ [lineGood], ∃ gs q, lineGroups l = some gs ∧
      pyFloat? (gs.getD 14 []) = some q ∧ mkRecord gsGood (1 / 2) = mkRecord gs q ∧
      (mkRecord gsGood (1 / 2)).request_time = q := by
  have hrun : parse_log 100 [lineGood] = (.ok ⟨1, 1 / 2, [mkRecord gsGood (1 / 2)]⟩, []) := by
    rw [parse_log]
    simp only [parseLogGo, show lineGroups lineGood = some gsGood from by decide]
    rw [if_neg (by norm_num)]
    rw [show pyFloat? (gsGood.getD 14 []) = some (1 / 2) from by
      norm_num [gsGood, pyFloat?, show pyFloatRep? ['0', '.', '5'] = some (5, -1) from by decide]]
    norm_num
  exact c5_record_invariant_amended 100 [lineGood] _ _ hrun (mkRecord gsGood (1 / 2))
    (by simp)

/-- C6 (amended): if the malformed ratio stays strictly below the threshold
at every line index *and* every grammar-matching line has a numeric trailing
token, the loop returns an `IngestResult` with every well-formed record in
input order, their count and their summed request time; with the trailing
conversion able to fail, a matching line with a non-numeric token instead
aborts the run with an uncaught error. The empty stream yields zero totals,
no records, an empty aggregate and zero report rows. -/
theorem c6_success_and_empty_amended :
    (∀ (T : ℚ) (lines : List (List Char)),
      (∀ l ∈ lines, ∀ gs, lineGroups l = some gs → (pyFloat? (gs.getD 14 [])).isSome) →
      (∀ i, 1 ≤ i → i ≤ lines.length →
        ¬ T ≤ (malformedAmong (lines.take i) : ℚ) * 100 / (i : ℚ)) →
      parse_log T lines =
        (.ok ⟨(lines.filterMap recordOf).length,
              ((lines.filterMap recordOf).map ParsedLine.request_time).sum,
              lines.filterMap recordOf⟩,
         lines.filter (fun l => (lineGroups l).isNone))) ∧
    (∀ T : ℚ, parse_log T [] = (.ok ⟨0, 0, []⟩, [])) ∧
    (∀ rs : ℚ, process_log rs ⟨0, 0, []⟩ = ⟨0, 0, []⟩) ∧
    (∀ nrd : ℕ, generate_report nrd ⟨0, 0, []⟩ = []) := by
  refine ⟨?_, ?_, ?_, ?_⟩
  · intro T lines hnc hlt
    apply parse_log_ok
    · intro k hk gs hgs
      have h1 := hlt (k + 1) (by omega) (by omega)
      rw [malformedAmong_take_succ_matched lines k hk gs hgs] at h1
      convert h1 using 3
      push_cast
      ring
    · intro k hk gs hgs
      exact hnc (lines.getD k []) (mem_of_getD lines k hk) gs hgs
  · intro T
    simp [parse_log, parseLogGo]
  · intro rs
    rfl
  · intro nrd
    rfl

/-- C6 counterexample: three lines whose malformed ratio (in the
specification's sense, grammar failure or numeric failure) never reaches the
threshold `T = 100`, yet the run returns no `IngestResult`: the third line
matches the grammar with a non-numeric trailing token and kills the run
with an uncaught `ValueError`. -/
theorem c6_counterexample :
    (∀ i, 1 ≤ i → i ≤ ([lineGood, lineGood, lineBadFloat] : List (List Char)).length →
      ¬ (100 : ℚ) ≤
        (specMalformedAmong ([lineGood, lineGood, lineBadFloat].take i) : ℚ) * 100 / (i : ℚ)) ∧
    (parse_log 100 [lineGood, lineGood, lineBadFloat]).1 = .valueError 3 := by
  constructor
  · intro i h1 h2
    simp only [List.length_cons, List.length_nil] at h2
    interval_cases i
    · norm_num [show specMalformedAmong [lineGood] = 0 from by decide]
    · norm_num [show specMalformedAmong [lineGood, lineGood] = 0 from by decide]
    · norm_num [show specMalformedAmong [lineGood, lineGood, lineBadFloat] = 1
        from by decide]
  · rw [parse_log]
    norm_num [parseLogGo, show lineGroups lineGood = some gsGood from by decide,
      show lineGroups lineBadFloat = some gsBadFloat from by decide,
      show pyFloat? (gsGood[14]?.getD []) = some (1 / 2) from by
        rw [show gsGood[14]?.getD [] = ['0', '.', '5'] from by decide]
        norm_num [pyFloat?,
          show pyFloatRep? ['0', '.', '5'] = some (5, -1) from by decide],
      show pyFloat? (gsBadFloat[14]?.getD []) = none from by
        rw [show gsBadFloat[14]?.getD [] = ['a', 'b', 'c'] from by decide]
        simp [pyFloat?, show pyFloatRep? ['a', 'b', 'c'] = none from by decide]]

/-- C6 witness: the single-good-line stream returns its one record with the
totals, and logs nothing. -/
theorem c6_witness :
    parse_log 100 [lineGood] =
      (.ok ⟨([lineGood].filterMap recordOf).length,
            (([lineGood].filterMap recordOf).map ParsedLine.request_time).sum,
            [lineGood].filterMap recordOf⟩,
       [lineGood].filter (fun l => (lineGroups l).isNone)) := by
  refine c6_success_and_empty_amended.1 100 [lineGood] (by decide) ?_
  intro i h1 h2
  simp only [List.length_cons, List.length_nil] at h2
  interval_cases i
  norm_num [show malformedAmong [lineGood] = 0 from by decide]

/-- C3: `process_log` retains exactly the URLs whose summed request time
reaches `REPORT_SIZE`; each retained entry carries the count, time sum, time
list (in input order) and running max of the naive fold over only that URL's
records; and the totals are summed only over retained entries. -/
theorem c3_aggregator_retention (recs : List ParsedLine) (rs : ℚ) (tc : ℕ) (tt : ℚ) :
    (∀ u pl, (u, pl) ∈ (process_log rs ⟨tc, tt, recs⟩).data ↔
      ((∃ p ∈ recs, p.url = u) ∧ rs ≤ (naiveStats u recs).time_sum ∧
        pl = naiveStats u recs)) ∧
    (process_log rs ⟨tc, tt, recs⟩).total_count =
      ((process_log rs ⟨tc, tt, recs⟩).data.map fun e => e.2.count).sum ∧
    (process_log rs ⟨tc, tt, recs⟩).total_time =
      ((process_log rs ⟨tc, tt, recs⟩).data.map fun e => e.2.time_sum).sum := by
  have hpl : process_log rs ⟨tc, tt, recs⟩ =
      ⟨0 + (((recs.foldl foldLine []).filter fun e => decide (rs ≤ e.2.time_sum)).map
          fun e => e.2.count).sum,
       0 + (((recs.foldl foldLine []).filter fun e => decide (rs ≤ e.2.time_sum)).map
          fun e => e.2.time_sum).sum,
       [] ++ ((recs.foldl foldLine []).filter fun e => decide (rs ≤ e.2.time_sum))⟩ := by
    rw [process_log]
    exact foldl_filterStep_eq rs _ ⟨0, 0, []⟩
  have hnd : (keysOf (recs.foldl foldLine [])).Nodup :=
    nodup_keys_foldl recs [] (by simp [keysOf])
  refine ⟨?_, ?_, ?_⟩
  · intro u pl
    rw [hpl]
    simp only [List.nil_append]
    constructor
    · intro hmem
      have hmem' := List.mem_filter.1 hmem
      have hle : rs ≤ pl.time_sum := by simpa using hmem'.2
      have hlk := (mem_iff_lookupUrl _ hnd u pl).1 hmem'.1
      rw [lookupUrl_tmp recs u] at hlk
      by_cases hms : (recs.filter fun p => decide (p.url = u)) = []
      · rw [if_pos hms] at hlk
        cases hlk
      · rw [if_neg hms] at hlk
        have hple : pl = naiveStats u recs := (Option.some.inj hlk).symm
        refine ⟨?_, hple ▸ hle, hple⟩
        by_contra hno
        push_neg at hno
        refine hms (List.filter_eq_nil_iff.2 ?_)
        intro p hp
        simpa using hno p hp
    · rintro ⟨⟨p0, hp0, hp0u⟩, hle, rfl⟩
      refine List.mem_filter.2 ⟨?_, by simpa using hle⟩
      refine (mem_iff_lookupUrl _ hnd u _).2 ?_
      rw [lookupUrl_tmp recs u]
      have hms : (recs.filter fun p => decide (p.url = u)) ≠ [] := by
        intro hnil
        have hall := List.filter_eq_nil_iff.1 hnil p0 hp0
        simp only [decide_eq_true_eq] at hall
        exact hall hp0u
      rw [if_neg hms]
  · rw [hpl]
    simp
  · rw [hpl]
    simp

/-- C3 witness: a single record with time 5 and threshold 1 retains its URL
with the naive statistics. -/
theorem c3_witness :
    ("u".toList, naiveStats "u".toList [simpleRec "u".toList 5]) ∈
      (process_log 1 ⟨0, 0, [simpleRec "u".toList 5]⟩).data := by
  refine ((c3_aggregator_retention [simpleRec "u".toList 5] 1 0 0).1 _ _).2
    ⟨⟨simpleRec "u".toList 5, by simp, rfl⟩, ?_, rfl⟩
  norm_num [naiveStats, simpleRec]

theorem getD_map {α β : Type} [Inhabited α] [Inhabited β] (f : α → β) (l : List α)
    (i : ℕ) (h : i < l.length) :
    (l.map f).getD i default = f (l.getD i default) := by
  rw [List.getD_eq_getElem?_getD, List.getD_eq_getElem?_getD, List.getElem?_map,
    List.getElem?_eq_getElem h]
  rfl

/-- C4: `generate_report` emits one row per retained entry, in order, with
`count_perc = count*100/total_count`, `time_perc = time_sum*100/total_time`,
`time_avg = time_sum/count`, `time_max`, and `time_med` the textbook median
of the stored time list (middle of a sorted permutation, averaging the two
middle values for even length), each rounded half-to-even at the configured
decimal depth. -/
theorem c4_report_rows (nrd : ℕ) (pl : ProcessedLog)
    (hc : pl.total_count ≠ 0) (ht : pl.total_time ≠ 0) :
    (generate_report nrd pl).length = pl.data.length ∧
    ∀ i, i < pl.data.length → ∀ s : List ℚ,
      s.Perm (pl.data.getD i default).2.time_list → s.Sorted (· ≤ ·) →
      (generate_report nrd pl).getD i default =
        ⟨(pl.data.getD i default).1,
         (pl.data.getD i default).2.count,
         pyRound nrd (((pl.data.getD i default).2.count : ℚ) * 100 / (pl.total_count : ℚ)),
         pyRound nrd (pl.data.getD i default).2.time_sum,
         pyRound nrd ((pl.data.getD i default).2.time_sum * 100 / pl.total_time),
         pyRound nrd ((pl.data.getD i default).2.time_sum /
           ((pl.data.getD i default).2.count : ℚ)),
         pyRound nrd (pl.data.getD i default).2.time_max,
         pyRound nrd (if s.length % 2 = 1 then s.getD (s.length / 2) 0
           else (s.getD (s.length / 2 - 1) 0 + s.getD (s.length / 2) 0) / 2)⟩ := by
  constructor
  · simp [generate_report]
  · intro i hi s hperm hsort
    rw [generate_report, getD_map _ _ _ hi]
    rw [reportRowOf]
    rw [pymedian_eq_sorted (pl.data.getD i default).2.time_list s hperm hsort]

/-- C4 witness: one retained URL with counts 1, time 5 and time list
`[5, 5]`, rounded at depth 3. -/
theorem c4_witness :
    (generate_report 3 cPL).getD 0 default =
      ⟨(cPL.data.getD 0 default).1,
       (cPL.data.getD 0 default).2.count,
       pyRound 3 (((cPL.data.getD 0 default).2.count : ℚ) * 100 / (cPL.total_count : ℚ)),
       pyRound 3 (cPL.data.getD 0 default).2.time_sum,
       pyRound 3 ((cPL.data.getD 0 default).2.time_sum * 100 / cPL.total_time),
       pyRound 3 ((cPL.data.getD 0 default).2.time_sum /
         ((cPL.data.getD 0 default).2.count : ℚ)),
       pyRound 3 (cPL.data.getD 0 default).2.time_max,
       pyRound 3 (if ([5, 5] : List ℚ).length % 2 = 1
         then ([5, 5] : List ℚ).getD (([5, 5] : List ℚ).length / 2) 0
         else (([5, 5] : List ℚ).getD (([5, 5] : List ℚ).length / 2 - 1) 0 +
           ([5, 5] : List ℚ).getD (([5, 5] : List ℚ).length / 2) 0) / 2)⟩ := by
  refine (c4_report_rows 3 cPL (by norm_num [cPL]) (by norm_num [cPL])).2 0
    (by norm_num [cPL]) [5, 5] ?_ ?_
  · rw [show (cPL.data.getD 0 default).2.time_list = [5, 5] from rfl]
  · simp [List.sorted_cons]

/-- C7: over a `process_log` output with positive totals, the rounded
count-percentages of the report rows sum to 100 within `n` half-places of
the rounding depth, and likewise the time-percentages. -/
theorem c7_percentages_sum (recs : List ParsedLine) (rs : ℚ) (tc : ℕ) (tt : ℚ) (nrd : ℕ)
    (hc : 0 < (process_log rs ⟨tc, tt, recs⟩).total_count)
    (ht : 0 < (process_log rs ⟨tc, tt, recs⟩).total_time) :
    |((generate_report nrd (process_log rs ⟨tc, tt, recs⟩)).map ReportRow.count_perc).sum
        - 100| ≤
      ((generate_report nrd (process_log rs ⟨tc, tt, recs⟩)).length : ℚ) *
        (1 / (2 * 10 ^ nrd)) ∧
    |((generate_report nrd (process_log rs ⟨tc, tt, recs⟩)).map ReportRow.time_perc).sum
        - 100| ≤
      ((generate_report nrd (process_log rs ⟨tc, tt, recs⟩)).length : ℚ) *
        (1 / (2 * 10 ^ nrd)) := by
  set out := process_log rs ⟨tc, tt, recs⟩ with hout
  have ho : out =
      ⟨(((recs.foldl foldLine []).filter fun e => decide (rs ≤ e.2.time_sum)).map
          (fun e => e.2.count)).sum,
       (((recs.foldl foldLine []).filter fun e => decide (rs ≤ e.2.time_sum)).map
          (fun e => e.2.time_sum)).sum,
       (recs.foldl foldLine []).filter fun e => decide (rs ≤ e.2.time_sum)⟩ := by
    rw [hout, process_log]
    rw [foldl_filterStep_eq rs _ ⟨0, 0, []⟩]
    simp
  set F := (recs.foldl foldLine []).filter fun e => decide (rs ≤ e.2.time_sum) with hF
  have hdata : out.data = F := by rw [ho]
  have htcn : out.total_count = (F.map fun e => e.2.count).sum := by rw [ho]
  have httq : out.total_time = (F.map fun e => e.2.time_sum).sum := by rw [ho]
  have hlen : (generate_report nrd out).length = F.length := by
    simp [generate_report, hdata]
  constructor
  · have h1 : (generate_report nrd out).map ReportRow.count_perc =
        (F.map fun e => ((e.2.count : ℚ) * 100 / (out.total_count : ℚ))).map
          (pyRound nrd) := by
      rw [generate_report, hdata]
      simp [List.map_map, reportRowOf, Function.comp]
    have hT0 : ((out.total_count : ℕ) : ℚ) ≠ 0 := Nat.cast_ne_zero.2 hc.ne'
    have hcast : ((out.total_count : ℕ) : ℚ) = (F.map fun e => ((e.2.count : ℚ))).sum := by
      rw [htcn, Nat.cast_list_sum, List.map_map]
      rfl
    have hsum : (F.map fun e => ((e.2.count : ℚ) * 100 / (out.total_count : ℚ))).sum = 100 := by
      calc (F.map fun e => ((e.2.count : ℚ) * 100 / (out.total_count : ℚ))).sum
          = (F.map fun e => ((e.2.count : ℚ)) * (100 / (out.total_count : ℚ))).sum := by
            simp only [mul_div_assoc]
        _ = (F.map fun e => ((e.2.count : ℚ))).sum * (100 / (out.total_count : ℚ)) :=
            List.sum_map_mul_right _ _ _
        _ = 100 := by
            rw [← hcast]
            field_simp
    have hb := abs_sum_pyRound_sub nrd
      (F.map fun e => ((e.2.count : ℚ) * 100 / (out.total_count : ℚ)))
    rw [hsum] at hb
    rw [h1, hlen]
    simpa using hb
  · have h1 : (generate_report nrd out).map ReportRow.time_perc =
        (F.map fun e => (e.2.time_sum * 100 / out.total_time)).map (pyRound nrd) := by
      rw [generate_report, hdata]
      simp [List.map_map, reportRowOf, Function.comp]
    have hT0 : out.total_time ≠ 0 := ht.ne'
    have hsum : (F.map fun e => (e.2.time_sum * 100 / out.total_time)).sum = 100 := by
      calc (F.map fun e => (e.2.time_sum * 100 / out.total_time)).sum
          = (F.map fun e => e.2.time_sum * (100 / out.total_time)).sum := by
            simp only [mul_div_assoc]
        _ = (F.map fun e => e.2.time_sum).sum * (100 / out.total_time) :=
            List.sum_map_mul_right _ _ _
        _ = 100 := by
            rw [← httq]
            field_simp
    have hb := abs_sum_pyRound_sub nrd
      (F.map fun e => (e.2.time_sum * 100 / out.total_time))
    rw [hsum] at hb
    rw [h1, hlen]
    simpa using hb

/-- C7 witness: one retained URL (count 1, time 5) at depth 3; its rounded
count-percentages sum to 100 within the epsilon. -/
theorem c7_witness :
    0 < (process_log 1 ⟨0, 0, [simpleRec "u".toList 5]⟩).total_count ∧
    |((generate_report 3 (process_log 1 ⟨0, 0, [simpleRec "u".toList 5]⟩)).map
        ReportRow.count_perc).sum - 100| ≤
      ((generate_report 3 (process_log 1 ⟨0, 0, [simpleRec "u".toList 5]⟩)).length : ℚ) *
        (1 / (2 * 10 ^ (3 : ℕ))) := by
  have hc : 0 < (process_log 1 ⟨0, 0, [simpleRec "u".toList 5]⟩).total_count := by
    norm_num [process_log, foldLine, lookupUrl, setUrl, initLine, updLine, filterStep,
      simpleRec]
  have ht : 0 < (process_log 1 ⟨0, 0, [simpleRec "u".toList 5]⟩).total_time := by
    norm_num [process_log, foldLine, lookupUrl, setUrl, initLine, updLine, filterStep,
      simpleRec]
  exact ⟨hc, (c7_percentages_sum [simpleRec "u".toList 5] 1 0 0 3 hc ht).1⟩

/-- C9: under the precondition `report_size > 0`, a non-empty retained
mapping forces both totals positive, so the divisions of `generate_report`
have non-zero divisors; and outside the precondition the zero-divisor state
is reachable: with `report_size = 0` and a single zero-time record the
mapping is non-empty while `total_time = 0` — the code has no guard. -/
theorem c9_division_safety :
    (∀ (recs : List ParsedLine) (rs : ℚ) (tc : ℕ) (tt : ℚ),
      0 < rs → (process_log rs ⟨tc, tt, recs⟩).data ≠ [] →
      0 < (process_log rs ⟨tc, tt, recs⟩).total_count ∧
      0 < (process_log rs ⟨tc, tt, recs⟩).total_time) ∧
    ((process_log 0 ⟨0, 0, [simpleRec "u".toList 0]⟩).data ≠ [] ∧
     (process_log 0 ⟨0, 0, [simpleRec "u".toList 0]⟩).total_time = 0) := by
  constructor
  · intro recs rs tc tt hrs hne
    have ho : process_log rs ⟨tc, tt, recs⟩ =
        ⟨(((recs.foldl foldLine []).filter fun e => decide (rs ≤ e.2.time_sum)).map
            (fun e => e.2.count)).sum,
         (((recs.foldl foldLine []).filter fun e => decide (rs ≤ e.2.time_sum)).map
            (fun e => e.2.time_sum)).sum,
         (recs.foldl foldLine []).filter fun e => decide (rs ≤ e.2.time_sum)⟩ := by
      rw [process_log, foldl_filterStep_eq rs _ ⟨0, 0, []⟩]
      simp
    set F := (recs.foldl foldLine []).filter fun e => decide (rs ≤ e.2.time_sum) with hF
    have hFne : F ≠ [] := by
      rw [ho] at hne
      simpa using hne
    constructor
    · rw [ho]
      show 0 < (F.map fun e => e.2.count).sum
      obtain ⟨e, he⟩ := List.exists_mem_of_ne_nil F hFne
      have hcount : 1 ≤ e.2.count := by
        have he' : (e.1, e.2) ∈ recs.foldl foldLine [] := by
          simpa using (List.mem_filter.1 he).1
        have hnd := nodup_keys_foldl recs [] (by simp [keysOf])
        have hlk := (mem_iff_lookupUrl _ hnd e.1 e.2).1 he'
        rw [lookupUrl_tmp] at hlk
        by_cases hms : (recs.filter fun p => decide (p.url = e.1)) = []
        · rw [if_pos hms] at hlk
          cases hlk
        · rw [if_neg hms] at hlk
          have h2 : e.2 = naiveStats e.1 recs := (Option.some.inj hlk).symm
          rw [h2]
          simp only [naiveStats, List.length_map]
          exact List.length_pos.2 hms
      have hmem : e.2.count ∈ F.map (fun e => e.2.count) := List.mem_map_of_mem _ he
      have hle := List.single_le_sum (fun x _ => Nat.zero_le x) _ hmem
      omega
    · rw [ho]
      apply List.sum_pos
      · intro x hx
        obtain ⟨e, he, hex⟩ := List.mem_map.1 hx
        have hrx : rs ≤ e.2.time_sum := by simpa using (List.mem_filter.1 he).2
        rw [← hex]
        linarith
      · simpa using hFne
  · constructor
    · norm_num [process_log, foldLine, lookupUrl, setUrl, initLine, updLine, filterStep,
        simpleRec]
    · norm_num [process_log, foldLine, lookupUrl, setUrl, initLine, updLine, filterStep,
        simpleRec]

/-- C9 witness: a positive threshold and one record with time 5 give
positive totals. -/
theorem c9_witness :
    0 < (process_log 1 ⟨0, 0, [simpleRec "u".toList 5]⟩).total_count ∧
    0 < (process_log 1 ⟨0, 0, [simpleRec "u".toList 5]⟩).total_time :=
  c9_division_safety.1 [simpleRec "u".toList 5] 1 0 0 (by norm_num)
    (by norm_num [process_log, foldLine, lookupUrl, setUrl, initLine, updLine,
      filterStep, simpleRec])

/-- C8 (amended): for every line in the documented token layout (fields
well-formed as in `goodTok`/`goodLoc`/`goodAgent`), the parser extracts each
named field equal to its token — except the protocol, which is extracted
*with* the closing quote of the request appended, since the pattern's quote
after the fifth inner token is consumed as the referer's opening quote — and
the produced record's `request_time` is exactly the numeric value of the
trailing token, with no unit conversion. -/
theorem c8_field_extraction_amended (f : LogFields)
    (ha : goodTok f.addr) (hu : goodTok f.user) (hr : goodTok f.realip)
    (htl : goodLoc f.tloc) (hm : goodTok f.meth) (hurl : goodTok f.urlf)
    (hp : goodTok f.prot) (hst : goodTok f.stat) (hb : goodTok f.nbytes)
    (hrf : goodTok f.refr) (hag : goodAgent f.agent) (hx : goodTok f.xfwd)
    (hq : goodTok f.reqid) (hw : goodTok f.rbuser) (ht : goodTok f.ttok) :
    lineGroups (render f) =
      some [f.addr, f.user, f.realip, f.tloc, f.meth, f.urlf, f.prot ++ ['"'], f.stat,
            f.nbytes, f.refr, f.agent, f.xfwd, f.reqid, f.rbuser, f.ttok] ∧
    ∀ T q : ℚ, 0 < T → pyFloat? f.ttok = some q →
      parse_log T [render f] =
        (.ok ⟨1, q, [⟨f.addr, f.user, f.realip, f.tloc, f.meth, f.urlf, f.prot ++ ['"'],
          f.stat, f.nbytes, f.refr, f.agent, f.xfwd, f.reqid, f.rbuser, q⟩]⟩, []) := by
  have h1 : lineGroups (render f) =
      some [f.addr, f.user, f.realip, f.tloc, f.meth, f.urlf, f.prot ++ ['"'], f.stat,
            f.nbytes, f.refr, f.agent, f.xfwd, f.reqid, f.rbuser, f.ttok] := by
    rw [show render f = renderTail f [] from rfl]
    exact renderTail_match f [] ha hu hr htl hm hurl hp hst hb hrf hag hx hq hw ht
      (Or.inl rfl) (fun c hc => absurd hc (List.not_mem_nil c))
  refine ⟨h1, ?_⟩
  intro T q hT hq2
  rw [parse_log]
  simp only [parseLogGo, h1]
  rw [if_neg (by norm_num; linarith)]
  rw [show ([f.addr, f.user, f.realip, f.tloc, f.meth, f.urlf, f.prot ++ ['"'], f.stat,
      f.nbytes, f.refr, f.agent, f.xfwd, f.reqid, f.rbuser, f.ttok] :
      List (List Char)).getD 14 [] = f.ttok from rfl]
  rw [hq2]
  norm_num [parseLogGo, mkRecord]

/-- C8 counterexample: on `lineGood` the protocol group is captured as
`p"` — the token *with* the closing quote — refuting the claim that the
three request-line fields are extracted without quote characters. -/
theorem c8_counterexample :
    lineGroups lineGood = some gsGood ∧ gsGood.getD 6 [] = ['p', '"'] :=
  ⟨by decide, by decide⟩

/-- C8 witness: the concrete well-formed line built from `cf` parses into
its fields (protocol carrying the quote) with request time `0.5`. -/
theorem c8_witness :
    parse_log 100 [render cf] =
      (.ok ⟨1, 1 / 2, [⟨cf.addr, cf.user, cf.realip, cf.tloc, cf.meth, cf.urlf,
        cf.prot ++ ['"'], cf.stat, cf.nbytes, cf.refr, cf.agent, cf.xfwd, cf.reqid,
        cf.rbuser, 1 / 2⟩]⟩, []) := by
  refine (c8_field_extraction_amended cf (by decide) (by decide) (by decide) (by decide)
    (by decide) (by decide) (by decide) (by decide) (by decide) (by decide) (by decide)
    (by decide) (by decide) (by decide) (by decide)).2 100 (1 / 2) (by norm_num) ?_
  rw [show cf.ttok = ['0', '.', '5'] from by decide]
  norm_num [pyFloat?, show pyFloatRep? ['0', '.', '5'] = some (5, -1) from by decide]

/-- C10 (amended): the match is anchored only at the start, so a well-formed
line followed by a space and extra trailing text is still classified as
well-formed with the same fifteen captures — *provided* the extra text
contains no `]`; an extra containing `]` can make the greedy timestamp group
re-anchor and change the extracted fields. -/
theorem c10_trailing_text_amended (f : LogFields) (extra : List Char)
    (ha : goodTok f.addr) (hu : goodTok f.user) (hr : goodTok f.realip)
    (htl : goodLoc f.tloc) (hm : goodTok f.meth) (hurl : goodTok f.urlf)
    (hp : goodTok f.prot) (hst : goodTok f.stat) (hb : goodTok f.nbytes)
    (hrf : goodTok f.refr) (hag : goodAgent f.agent) (hx : goodTok f.xfwd)
    (hq : goodTok f.reqid) (hw : goodTok f.rbuser) (ht : goodTok f.ttok)
    (hex : ∀ c ∈ extra, c ≠ ']') :
    lineGroups (render f ++ ' ' :: extra) = lineGroups (render f) := by
  have h1 := renderTail_match f (' ' :: extra) ha hu hr htl hm hurl hp hst hb hrf hag
    hx hq hw ht (Or.inr ⟨' ', extra, rfl, by decide⟩) (noRB_cons (by decide) hex)
  have h2 := renderTail_match f [] ha hu hr htl hm hurl hp hst hb hrf hag hx hq hw ht
    (Or.inl rfl) (fun c hc => absurd hc (List.not_mem_nil c))
  rw [lineGroups, lineGroups, render_append, show render f = renderTail f [] from rfl]
  rw [h1, h2]

/-- C10 counterexample: with adversarial trailing text containing `]` and a
completion of the pattern, the line still matches but the extracted URL
changes from `u` to `u2` — the fifteen field values are not preserved. -/
theorem c10_counterexample :
    (lineGroups (lineGood ++ ' ' :: extraAdv)).isSome = true ∧
    (lineGroups (lineGood ++ ' ' :: extraAdv)).map (fun gs => gs.getD 5 []) =
      some "u2".toList ∧
    (lineGroups lineGood).map (fun gs => gs.getD 5 []) = some "u".toList :=
  ⟨by decide, by decide, by decide⟩

/-- C10 witness: benign trailing text (no `]`) leaves the captures of the
`cf` line unchanged. -/
theorem c10_witness :
    lineGroups (render cf ++ ' ' :: "hello world".toList) = lineGroups (render cf) :=
  c10_trailing_text_amended cf "hello world".toList (by decide) (by decide) (by decide)
    (by decide) (by decide) (by decide) (by decide) (by decide) (by decide) (by decide)
    (by decide) (by decide) (by decide) (by decide) (by decide) (by decide)
